import Mathlib

/-!
Verification of the revive-hq-demo search pipeline.

This file shallowly embeds the core logic of the repository:

* `apps/api/src/routes/search.ts` — query-key normalization
  (`makeAddressQueryKey`, `makeCityQueryKey`), the recent-search cache
  freshness constant, and the `POST /v1/search` address branch.
* `apps/api/src/providers/repliers.ts` — the provider adapter
  (`searchByCity`, `searchByAddress`, raw-listing mapping, photo CDN
  rewriting, defensive numeric extraction).
* `apps/api/src/repositories/searchRepository.ts` — the Firestore-backed
  repository (`createSearchWithResults`, `findRecentSearchByQueryKey`,
  `getSearch`, `deleteSearch`).

Modelling conventions:

* JavaScript strings are Lean `String` (lists of `Char`); `\s` is modelled
  by `Char.isWhitespace`, `toLowerCase`/`toUpperCase` by `Char.toLower` /
  `Char.toUpper` (faithful on the ASCII data these functions handle).
* JavaScript numbers are modelled as `Option Int`: `some n` is a finite
  number, `none` a non-finite one (`NaN`/`Infinity`).  The claims under
  verification never depend on fractional values.
* Firestore is modelled as association lists keyed by document id; a
  batched write is a list of operations applied atomically by
  `commitBatch`.  Fallible reads are modelled with `Except Unit` results
  supplied by an environment record, mirroring the `try`/`catch`
  structure of the source.
* `randomUUID()` is modelled by a position-indexed supply
  `uuid : Nat → String` passed to the adapter.
-/

/-! ## Character and list utilities shared by both TypeScript files -/

/-- Model of the JavaScript `\s` character class (ASCII fragment). -/
def isWs (c : Char) : Bool := c.isWhitespace

/-- Complement of `isWs`. -/
def notWs (c : Char) : Bool := !(isWs c)

/-- Drop leading whitespace, as JavaScript `String.trimStart`. -/
def trimHead (l : List Char) : List Char := l.dropWhile isWs

/-- Drop trailing whitespace, as JavaScript `String.trimEnd`. -/
def trimTail (l : List Char) : List Char := (l.reverse.dropWhile isWs).reverse

/-- Model of JavaScript `String.trim`. -/
def trimBoth (l : List Char) : List Char := trimTail (trimHead l)

/-- Model of JavaScript `s.trim()` on `String`. -/
def trimS (s : String) : String := ⟨trimBoth s.data⟩

/-- Model of `replace(/\s+/g, ' ')`: every maximal whitespace run becomes
one space. -/
def collapseWs : List Char → List Char
  | [] => []
  | [c] => if isWs c then [' '] else [c]
  | c :: d :: rest =>
    if isWs c then
      if isWs d then collapseWs (d :: rest) else ' ' :: collapseWs (d :: rest)
    else c :: collapseWs (d :: rest)

/-- Model of JavaScript `toLowerCase` (ASCII). -/
def lowerS (s : String) : String := ⟨s.data.map Char.toLower⟩

/-- Model of JavaScript `toUpperCase` (ASCII). -/
def upperS (s : String) : String := ⟨s.data.map Char.toUpper⟩

/-- Fuel-driven splitter: the maximal non-whitespace runs of a string, in
order.  With fuel at least the length of the list this computes the word
list used to state case/whitespace-insensitivity. -/
def splitWordsF : Nat → List Char → List (List Char)
  | _, [] => []
  | 0, _ :: _ => []
  | fuel + 1, c :: cs =>
    if isWs c then splitWordsF fuel (cs.dropWhile isWs)
    else (c :: cs.takeWhile notWs) :: splitWordsF fuel (cs.dropWhile notWs)

/-- Maximal non-whitespace runs (words) of a character list. -/
def splitWords (l : List Char) : List (List Char) := splitWordsF l.length l

/-- Join words with single spaces; the canonical form produced by
trim-then-collapse whitespace normalization. -/
def joinWords : List (List Char) → List Char
  | [] => []
  | [w] => w
  | w :: rest => w ++ ' ' :: joinWords rest

/-- Lowercased word list of a string: two strings have equal
`wordsLower` exactly when they differ only in letter case,
leading/trailing whitespace, or internal whitespace runs. -/
def wordsLower (s : String) : List (List Char) :=
  (splitWords s.data).map (List.map Char.toLower)

/-- Uppercased word list of a string. -/
def wordsUpper (s : String) : List (List Char) :=
  (splitWords s.data).map (List.map Char.toUpper)

/-- Fuel-driven decimal digits of a natural number, most significant
first; fuel `n + 1` suffices for `n`. -/
def natDecF : Nat → Nat → List Char
  | 0, _ => []
  | fuel + 1, n =>
    if n < 10 then [Nat.digitChar n]
    else natDecF fuel (n / 10) ++ [Nat.digitChar (n % 10)]

/-- Model of the JavaScript template interpolation of a nonnegative
integer, e.g. the `${limit}` in a query key. -/
def natDec (n : Nat) : String := ⟨natDecF (n + 1) n⟩

/-! ## apps/api/src/routes/search.ts — query-key normalizer -/

namespace SearchRoute

/-- Freshness window for the recent-search cache (15 minutes), from
`RECENT_SEARCH_CACHE_MAX_AGE_MS = 15 * 60 * 1000`. -/
def RECENT_SEARCH_CACHE_MAX_AGE_MS : Int := 15 * 60 * 1000

/-- Embedding of `normalizeWhitespace` from `routes/search.ts`:
`value.trim().replace(/\s+/g, ' ')`. -/
def normalizeWhitespace (s : String) : String := ⟨collapseWs (trimBoth s.data)⟩

/-- Embedding of `makeAddressQueryKey`. -/
def makeAddressQueryKey (address : String) : String :=
  "address:" ++ lowerS (normalizeWhitespace address)

/-- Embedding of `makeCityQueryKey`.  The `limit` interpolated is the
effective limit already computed by the route (`parsed.limit ?? 100`). -/
def makeCityQueryKey (city state : String) (limit : Nat) : String :=
  "city:" ++ lowerS (normalizeWhitespace city) ++ "|state:" ++
    upperS (normalizeWhitespace state) ++ "|limit:" ++ natDec limit

/-- Modelled from the spec: the spec's own formula for the city query
key, `"city:" + lowercase(collapse-whitespace(trim(city))) + "|state:" +
uppercase(trim(state)) + "|limit:" + effectiveLimit` — the state is only
trimmed, not whitespace-collapsed.  Used to compare the spec's wording
with the code's `makeCityQueryKey`. -/
def makeCityQueryKeySpec (city state : String) (limit : Nat) : String :=
  "city:" ++ lowerS (normalizeWhitespace city) ++ "|state:" ++
    upperS (trimS state) ++ "|limit:" ++ natDec limit

end SearchRoute

/-! ## apps/api/src/providers/repliers.ts — provider adapter -/

namespace Repliers

/-- Model of a JSON value as received from the provider.  A JavaScript
number is `num (some n)` when finite and `num none` when `NaN` or
`Infinity` (`Number.isFinite` is the only inspection the code performs
beyond the value itself; the claims never depend on fractional parts). -/
inductive JVal where
  | str (s : String)
  | num (n : Option Int)
  | bool (b : Bool)
  | arr (xs : List JVal)
  | obj (fields : List (String × JVal))
  | null
deriving Repr

/-- Field access on a JSON object: JavaScript `obj[key]`, `none` when the
key is absent. -/
def objGet (fields : List (String × JVal)) (key : String) : Option JVal :=
  (fields.find? (fun e => e.1 == key)).map (·.2)

/-- Embedding of `getString`: the field's value when it is a string. -/
def getString (fields : List (String × JVal)) (key : String) : Option String :=
  match objGet fields key with
  | some (.str s) => some s
  | _ => none

/-- Embedding of `getNumber`: the field's value when it is a number
(no finiteness check, as in the source). -/
def getNumber (fields : List (String × JVal)) (key : String) : Option (Option Int) :=
  match objGet fields key with
  | some (.num n) => some n
  | _ => none

/-- Model of the JavaScript `Number()` coercion restricted to what the
claims need: an optionally signed decimal integer literal parses to that
integer, anything else is non-finite (`none`, i.e. `NaN`). -/
def parseJSNumber (s : String) : Option Int :=
  match s.data with
  | [] => none
  | '-' :: rest =>
    if rest ≠ [] ∧ rest.all Char.isDigit then
      some (-(Int.ofNat (rest.foldl (fun acc c => acc * 10 + (c.toNat - '0'.toNat)) 0)))
    else none
  | l =>
    if l.all Char.isDigit then
      some (Int.ofNat (l.foldl (fun acc c => acc * 10 + (c.toNat - '0'.toNat)) 0))
    else none

/-- Remove every comma, as `replace(/,/g, '')`. -/
def stripCommas (s : String) : String := ⟨s.data.filter (fun c => !(c = ','))⟩

/-- Embedding of `getNumeric`: a finite number passes through; a string
is trimmed, rejected when blank, then comma-stripped and coerced; other
shapes give `undefined`. -/
def getNumeric (fields : List (String × JVal)) (key : String) : Option Int :=
  match objGet fields key with
  | some (.num n) => n
  | some (.str s) =>
    let trimmed := trimS s
    if trimmed = "" then none
    else parseJSNumber (stripCommas trimmed)
  | _ => none

/-- Embedding of `getNested`: the field's value when it is an object. -/
def getNested (fields : List (String × JVal)) (key : String) :
    Option (List (String × JVal)) :=
  match objGet fields key with
  | some (.obj o) => some o
  | _ => none

/-- Embedding of `normalizeWhitespace` from `providers/repliers.ts`:
`value.replace(/\s+/g, ' ').trim()`. -/
def normalizeWhitespace (s : String) : String := ⟨trimBoth (collapseWs s.data)⟩

/-- Unit-token characters, the `[A-Za-z0-9-]` class of the unit-stripping
patterns. -/
def isUnitChar (c : Char) : Bool := c.isAlphanum || c = '-'

/-- Attempt of the first unit-stripping pattern
`/\s+#\s*[A-Za-z0-9-]+\s*$/` on a whitespace-normalized street line,
returning the text before the match when it matches. -/
def stripHashUnit (l : List Char) : Option (List Char) :=
  let r0 := l.reverse.dropWhile isWs
  let tok := r0.takeWhile isUnitChar
  if tok.isEmpty then none
  else
    let r1 := (r0.dropWhile isUnitChar).dropWhile isWs
    match r1 with
    | '#' :: r2 =>
      let r3 := r2.dropWhile isWs
      if r3.length < r2.length then some r3.reverse else none
    | _ => none

/-- Unit keywords of the second stripping pattern (case-insensitive). -/
def UNIT_KEYWORDS : List String :=
  ["apt", "apartment", "unit", "ste", "suite", "fl", "floor"]

/-- Attempt of the second unit-stripping pattern
`/\s+(apt|apartment|unit|ste|suite|fl|floor)\s+[A-Za-z0-9-]+\s*$/i` on a
whitespace-normalized street line. -/
def stripKeywordUnit (l : List Char) : Option (List Char) :=
  let r0 := l.reverse.dropWhile isWs
  let tok := r0.takeWhile isUnitChar
  if tok.isEmpty then none
  else
    let r1 := r0.dropWhile isUnitChar
    let r2 := r1.dropWhile isWs
    if r2.length = r1.length then none
    else
      let kw := r2.takeWhile Char.isAlpha
      let r3 := r2.dropWhile Char.isAlpha
      let r4 := r3.dropWhile isWs
      if UNIT_KEYWORDS.contains (lowerS ⟨kw.reverse⟩) ∧ r4.length < r3.length then
        some r4.reverse
      else none

/-- Embedding of `stripUnitDesignator`: normalize whitespace, strip a
trailing `#<unit>`, else a trailing `<keyword> <unit>`, trimming the
result. -/
def stripUnitDesignator (streetLine : String) : String :=
  let normalized := normalizeWhitespace streetLine
  match stripHashUnit normalized.data with
  | some l => ⟨trimBoth l⟩
  | none =>
    match stripKeywordUnit normalized.data with
    | some l => ⟨trimBoth l⟩
    | none => normalized

/-- Split a character list on commas, as JavaScript `split(',')`. -/
def splitOnComma : List Char → List (List Char)
  | [] => [[]]
  | c :: rest =>
    if c = ',' then [] :: splitOnComma rest
    else
      match splitOnComma rest with
      | [] => [[c]]
      | seg :: segs => (c :: seg) :: segs

/-- Embedding of `parseCityStateFromQuery`: comma-split the query,
whitespace-normalize and drop empty parts, then read `city` from part 1
and a two-letter state code from the first token of part 2. -/
def parseCityStateFromQuery (addressQuery : String) :
    Option String × Option String :=
  let parts := ((splitOnComma addressQuery.data).map
      (fun p => normalizeWhitespace ⟨p⟩)).filter (fun p => !(p == ""))
  if parts.length < 3 then (none, none)
  else
    let city := parts[1]?
    let stateToken : String := ⟨(parts.getD 2 "").data.takeWhile (fun c => !(isWs c))⟩
    let state :=
      if stateToken.data.length = 2 ∧ stateToken.data.all Char.isAlpha then
        some (upperS stateToken)
      else none
    (city, state)

/-- Embedding of `getListingArray`: a bare array payload, else the first
of `listings`/`results`/`data` that is an array, else empty. -/
def getListingArray (payload : JVal) : List JVal :=
  match payload with
  | .arr xs => xs
  | .obj fields =>
    match objGet fields "listings" with
    | some (.arr xs) => xs
    | _ =>
      match objGet fields "results" with
      | some (.arr xs) => xs
      | _ =>
        match objGet fields "data" with
        | some (.arr xs) => xs
        | _ => []
  | _ => []

/-- Test of `/^https?:\/\//i` on an already-trimmed string. -/
def isHttpAbsolute (s : String) : Bool :=
  let low := (lowerS s).data
  List.isPrefixOf "http://".data low || List.isPrefixOf "https://".data low

/-- Embedding of `toCdnUrl`: an absolute http(s) URL is returned trimmed;
a relative path loses its leading slashes, is prefixed with the CDN base
and always receives a `class=medium` size hint, joined with `&` when the
path already carries a query string and `?` otherwise. -/
def toCdnUrl (pathOrUrl : String) : String :=
  let trimmed := trimS pathOrUrl
  if isHttpAbsolute trimmed then trimmed
  else
    let clean : String := ⟨trimmed.data.dropWhile (fun c => c = '/')⟩
    let base := "https://cdn.repliers.io/" ++ clean
    if base.data.contains '?' then base ++ "&class=medium"
    else base ++ "?class=medium"

/-- Url-like field of a photo entry after the source's truthiness test: a
bare string is used as is; an object yields the first string among
`url`/`href`/`path` provided it is non-empty (the `if (url)` guard);
anything else yields nothing. -/
def photoUrlOf : JVal → Option String
  | .str s => some s
  | .obj o =>
    match getString o "url" <|> getString o "href" <|> getString o "path" with
    | some u => if u = "" then none else some u
    | none => none
  | _ => none

/-- Loop body of `extractPhotos` over the entries of an `images` array. -/
def photosLoop : List JVal → List String
  | [] => []
  | .str s :: rest => toCdnUrl s :: photosLoop rest
  | .obj o :: rest =>
    match getString o "url" <|> getString o "href" <|> getString o "path" with
    | some u => if u = "" then photosLoop rest else toCdnUrl u :: photosLoop rest
    | none => photosLoop rest
  | _ :: rest => photosLoop rest

/-- Embedding of `extractPhotos`: the `images` field must be an array
(a falsy or non-array value yields no photos). -/
def extractPhotos (listing : List (String × JVal)) : List String :=
  match objGet listing "images" with
  | some (.arr imgs) => photosLoop imgs
  | _ => []

/-- Join non-empty string parts with a separator, as `parts.join(sep)`. -/
def joinSep (sep : String) : List String → String
  | [] => ""
  | [p] => p
  | p :: rest => p ++ sep ++ joinSep sep rest

/-- Keep the string options that are present with non-blank content, the
`filter((p): p is string => typeof p === 'string' && p.trim().length > 0)`
of the source. -/
def presentParts (parts : List (Option String)) : List String :=
  parts.filterMap (fun o =>
    match o with
    | some s => if trimS s = "" then none else some s
    | none => none)

/-- Embedding of `extractAddress`: prefer the structured `address`
object, assembling street line, locale and postal code; fall back to a
flat `address`/`fullAddress` string; else the empty string. -/
def extractAddress (listing : List (String × JVal)) : String :=
  match getNested listing "address" with
  | some address =>
    let streetNumber := getString address "streetNumber"
    let streetName := getString address "streetName"
    let streetSuffix := getString address "streetSuffix"
    let dirPre := getString address "streetDirectionPrefix"
    let dir := getString address "streetDirection"
    let unitNumber := getString address "unitNumber"
    let city := getString address "city"
    let state := getString address "state"
    let postal := getString address "postalCode" <|> getString address "zip"
    let streetParts := presentParts
      [streetNumber, streetName, streetSuffix, dirPre, dir,
        unitNumber.map (fun u => "#" ++ u)]
    let streetLine := normalizeWhitespace (joinSep " " streetParts)
    let localeParts := presentParts [city, state]
    let locale := normalizeWhitespace (joinSep ", " localeParts)
    let baseParts := ([streetLine, locale] : List String).filter
      (fun p => !(p == ""))
    let base := normalizeWhitespace (joinSep ", " baseParts)
    match postal with
    | some p => normalizeWhitespace (base ++ " " ++ p)
    | none => base
  | none =>
    match getString listing "address" <|> getString listing "fullAddress" with
    | some fallback => normalizeWhitespace fallback
    | none => ""

/-- Rendering of a JavaScript number by `String(...)`; a non-finite value
prints as a non-empty word (its exact spelling is irrelevant to every
claim). -/
def numToString (n : Option Int) : String :=
  match n with
  | some i => if i < 0 then "-" ++ natDec (-i).toNat else natDec i.toNat
  | none => "NaN"

/-- Embedding of `extractSourceId`: the first non-blank among the id-like
fields, else a fresh identifier from the `randomUUID()` supply. -/
def extractSourceId (listing : List (String × JVal)) (fresh : String) : String :=
  let candidates := ([getString listing "id", getString listing "listingId",
      getString listing "mlsId", getString listing "mlsNumber",
      some (match getNumber listing "id" with
            | some n => numToString n
            | none => ""),
      some (match getNumber listing "listingId" with
            | some n => numToString n
            | none => "")] : List (Option String)).filterMap (fun o =>
    match o with
    | some s => if trimS s = "" then none else some s
    | none => none)
  candidates.headD fresh

/-- Embedding of `extractBeds`. -/
def extractBeds (listing : List (String × JVal)) : Option Int :=
  (match getNested listing "details" with
   | some details => getNumeric details "numBedrooms" <|> getNumeric details "bedrooms"
   | none => none) <|>
  getNumeric listing "numBedrooms" <|>
  getNumeric listing "bedrooms" <|>
  getNumeric listing "beds"

/-- Embedding of `extractBaths`. -/
def extractBaths (listing : List (String × JVal)) : Option Int :=
  (match getNested listing "details" with
   | some details => getNumeric details "numBathrooms" <|> getNumeric details "bathrooms"
   | none => none) <|>
  getNumeric listing "numBathrooms" <|>
  getNumeric listing "bathrooms" <|>
  getNumeric listing "baths"

/-- Embedding of `extractSqft`. -/
def extractSqft (listing : List (String × JVal)) : Option Int :=
  (match getNested listing "details" with
   | some details => getNumeric details "sqft" <|> getNumeric details "livingArea"
   | none => none) <|>
  getNumeric listing "sqft" <|>
  getNumeric listing "livingArea"

/-- Embedding of `extractPrice`: the first finite value among
`listPrice`/`price`/`listingPrice`. -/
def extractPrice (listing : List (String × JVal)) : Option Int :=
  getNumeric listing "listPrice" <|> getNumeric listing "price" <|>
    getNumeric listing "listingPrice"

end Repliers

/-- Canonical listing shape from `types.ts`; optional numerics keep
"unknown" (`none`) as a first-class value. -/
structure PropertyListing where
  source : String
  sourceId : String
  address : String
  price : Option Int
  beds : Option Int
  baths : Option Int
  sqft : Option Int
  photos : List String
deriving Repr, DecidableEq

namespace Repliers

/-- Embedding of `listingToProperty`; `fresh` is the `randomUUID()` value
used when no id-like field is present. -/
def listingToProperty (fresh : String) : JVal → PropertyListing
  | .obj listing =>
    { source := "repliers"
      sourceId := extractSourceId listing fresh
      address := extractAddress listing
      price := extractPrice listing
      beds := extractBeds listing
      baths := extractBaths listing
      sqft := extractSqft listing
      photos := extractPhotos listing }
  | _ =>
    { source := "repliers"
      sourceId := extractSourceId [] fresh
      address := extractAddress []
      price := extractPrice []
      beds := extractBeds []
      baths := extractBaths []
      sqft := extractSqft []
      photos := extractPhotos [] }

/-- Map raw listings to canonical listings, drawing each element's
`randomUUID()` fallback from the position-indexed supply. -/
def mapListingsFrom (uuid : Nat → String) (i : Nat) : List JVal → List PropertyListing
  | [] => []
  | l :: rest => listingToProperty (uuid i) l :: mapListingsFrom uuid (i + 1) rest

/-- Map raw listings starting at supply position 0. -/
def mapListings (uuid : Nat → String) (ls : List JVal) : List PropertyListing :=
  mapListingsFrom uuid 0 ls

/-- Provider request issued by `searchByCity` (the query parameters set
on the single `/listings` call). -/
structure CityRequest where
  city : String
  state : String
  type : String
  status : String
  pageSize : Int
  pageNum : Nat
deriving Repr, DecidableEq

/-- Embedding of `searchByCity`: clamp the limit into `[1, 100]`, issue
one request filtered to for-sale (`type=sale`) active (`status=A`)
listings, and map the first `cappedLimit` returned records in provider
order (`listings.slice(0, cappedLimit).map(listingToProperty)`).  The
provider's payload for the request is passed in as `payload`. -/
def searchByCity (city state : String) (limit : Int) (payload : JVal)
    (uuid : Nat → String) : CityRequest × List PropertyListing :=
  let cappedLimit : Int := min (max limit 1) 100
  (⟨city, state, "sale", "A", cappedLimit, 1⟩,
    mapListings uuid ((getListingArray payload).take cappedLimit.toNat))

/-- Provider request issued by `searchByAddress` for one street-name
candidate. -/
structure AddrRequest where
  streetNumber : String
  streetName : String
  city : Option String
  state : Option String
  type : String
  status : String
  pageNum : Nat
deriving Repr, DecidableEq

/-- Model of the `/^\s*(\d+)\s+(.*?)\s*$/` extraction on the street line:
the maximal leading digit run (which must be followed by at least one
whitespace character) and the remainder with surrounding whitespace
stripped. -/
def parseStreet (s : String) : Option (String × String) :=
  let l := s.data.dropWhile isWs
  let digits := l.takeWhile Char.isDigit
  if digits.isEmpty then none
  else
    match l.dropWhile Char.isDigit with
    | [] => none
    | c :: rest =>
      if isWs c then some (⟨digits⟩, ⟨trimTail (rest.dropWhile isWs)⟩)
      else none

/-- First comma-separated segment of the query, trimmed:
`addressQuery.split(',')[0]?.trim() ?? addressQuery.trim()`. -/
def firstLineOf (addressQuery : String) : String :=
  trimS ⟨(splitOnComma addressQuery.data).headD addressQuery.data⟩

/-- Road-suffix tokens stripped from the end of a street name. -/
def ROAD_SUFFIXES : List String :=
  ["st", "street", "rd", "road", "dr", "drive", "ave", "avenue", "blvd",
   "boulevard", "ln", "lane", "ct", "court", "cir", "circle", "pl",
   "place", "way", "pkwy", "parkway", "hwy", "highway", "ter", "terrace",
   "trl", "trail"]

/-- Directional tokens stripped from the end of a street name. -/
def DIRECTIONS : List String := ["n", "s", "e", "w", "ne", "nw", "se", "sw"]

/-- Does a trailing token get stripped?  Lowercased with periods removed,
it must be a road suffix or a direction. -/
def isStrippableToken (t : String) : Bool :=
  let w : String := ⟨(lowerS t).data.filter (fun c => !(c = '.'))⟩
  ROAD_SUFFIXES.contains w || DIRECTIONS.contains w

/-- The `while (strippedTokens.length > 1)` loop on the reversed token
list: drop strippable tokens from the front (= end of the original) while
more than one token remains. -/
def stripRev : List String → List String
  | [] => []
  | [t] => [t]
  | t :: t2 :: rest =>
    if isStrippableToken t then stripRev (t2 :: rest) else t :: t2 :: rest

/-- Tokens of a street name: `split(/\s+/).filter(Boolean)`. -/
def wordsOf (s : String) : List String := (splitWords s.data).map (⟨·⟩)

/-- Candidate street names before de-duplication: the full stripped name,
the suffix/direction-stripped name, its first two tokens, its first
token; blank entries removed, each normalized. -/
def addressCandidates (streetNameRaw : String) : List String :=
  let strippedTokens := (stripRev (wordsOf streetNameRaw).reverse).reverse
  (([some streetNameRaw,
     some (joinSep " " strippedTokens),
     if strippedTokens.length ≥ 2 then some (joinSep " " (strippedTokens.take 2)) else none,
     if strippedTokens.length ≥ 1 then some (joinSep " " (strippedTokens.take 1)) else none] :
    List (Option String)).filterMap (fun o =>
      match o with
      | some v => if trimS v = "" then none else some v
      | none => none)).map normalizeWhitespace

/-- Case-insensitive order-preserving de-duplication of the candidate
list. -/
def dedupCI (cs : List String) : List String :=
  cs.foldl (fun acc c =>
    if acc.any (fun x => lowerS x == lowerS c) then acc else acc ++ [c]) []

/-- Street-name candidates tried against the provider, in order. -/
def tryNamesOf (streetNameRaw : String) : List String :=
  dedupCI (addressCandidates streetNameRaw)

/-- Parsed plan of an address search: street number, parsed city/state,
and the ordered candidate list; `none` when the street line has no
leading number. -/
def addressPlan (addressQuery : String) :
    Option (String × (Option String × Option String) × List String) :=
  match parseStreet (firstLineOf addressQuery) with
  | none => none
  | some (streetNumber, rest) =>
    some (streetNumber, parseCityStateFromQuery addressQuery,
      tryNamesOf (stripUnitDesignator rest))

/-- Prefix test on character lists (needle first). -/
def startsWithL : List Char → List Char → Bool
  | [], _ => true
  | _ :: _, [] => false
  | a :: as, b :: bs => a == b && startsWithL as bs

/-- Model of JavaScript `String.includes` on character lists (needle
first). -/
def hasSub (needle : List Char) : List Char → Bool
  | [] => needle.isEmpty
  | c :: rest => startsWithL needle (c :: rest) || hasSub needle rest

/-- Selection among the listings of the first non-empty candidate: keep
the mapped listings with a non-empty formatted address, return the exact
case-insensitive match of the normalized query, else the first whose
address contains the normalized query, else the first kept listing. -/
def selectFromListings (uuid : Nat → String) (normalizedQuery : String)
    (listings : List JVal) : Option PropertyListing :=
  let withAddresses := (mapListings uuid listings).filter
    (fun p => !(p.address == ""))
  match withAddresses.find? (fun p => lowerS p.address == normalizedQuery) with
  | some exact => some exact
  | none =>
    match withAddresses.find? (fun p =>
        hasSub normalizedQuery.data (lowerS p.address).data) with
    | some c => some c
    | none => withAddresses.head?

/-- The candidate loop of `searchByAddress`: query the provider for each
candidate in order, stop at the first returning at least one listing and
select from it; record every request issued.  `pf` maps a candidate
street name to the provider's payload for that request. -/
def tryCandidates (pf : String → JVal) (uuid : Nat → String)
    (mkReq : String → AddrRequest) (normalizedQuery : String) :
    List String → List AddrRequest × Option PropertyListing
  | [] => ([], none)
  | n :: rest =>
    let listings := getListingArray (pf n)
    if listings.isEmpty then
      let r := tryCandidates pf uuid mkReq normalizedQuery rest
      (mkReq n :: r.1, r.2)
    else ([mkReq n], selectFromListings uuid normalizedQuery listings)

/-- Embedding of `searchByAddress`, returning the requests issued to the
provider together with the result (`none` is the "not found" outcome). -/
def searchByAddress (addressQuery : String) (pf : String → JVal)
    (uuid : Nat → String) : List AddrRequest × Option PropertyListing :=
  match addressPlan addressQuery with
  | none => ([], none)
  | some (streetNumber, cs, tryNames) =>
    tryCandidates pf uuid
      (fun name => ⟨streetNumber, name, cs.1, cs.2, "sale", "A", 1⟩)
      (lowerS (normalizeWhitespace addressQuery)) tryNames

end Repliers

/-! ## apps/api/src/repositories/searchRepository.ts — search repository -/

namespace Repo

/-- Search mode, from `types.ts`. -/
inductive SearchMode where
  | address
  | city
deriving Repr, DecidableEq

/-- String form of a mode as interpolated into cache keys. -/
def SearchMode.toKey : SearchMode → String
  | .address => "address"
  | .city => "city"

/-- Persisted `searches/{searchId}` document.  `queryKey` is `none` when
the field was omitted (the `...(params.queryKey ? { queryKey } : {})`
spread).  Timestamps are epoch milliseconds. -/
structure SearchDoc where
  mode : SearchMode
  query : String
  queryKey : Option String
  source : String
  resultCount : Nat
  createdAt : Int
  retrievedAt : Int
deriving Repr, DecidableEq

/-- Persisted `properties/{sourceId}` subdocument: the listing stamped
with `retrievedAt` (`omitUndefined` merely drops absent optional fields,
which the `Option` fields already express). -/
structure StoredListing where
  listing : PropertyListing
  retrievedAt : Int
deriving Repr, DecidableEq

/-- Persisted `searchCache/{mode}:{queryKey}` pointer document. -/
structure CacheDoc where
  mode : SearchMode
  query : String
  queryKey : String
  source : String
  searchId : String
  resultCount : Nat
  updatedAt : Int
deriving Repr, DecidableEq

/-- The Firestore state touched by the repository: `searches` documents,
their `properties` subcollections (keyed by search id and source id), and
the `searchCache` pointer collection. -/
structure Store where
  searches : List (String × SearchDoc)
  props : List ((String × String) × StoredListing)
  cache : List (String × CacheDoc)
deriving Repr, DecidableEq

/-- Lookup in an association list. -/
def assocFind {κ α : Type} [DecidableEq κ] (k : κ) (l : List (κ × α)) : Option α :=
  (l.find? (fun e => decide (e.1 = k))).map (·.2)

/-- Overwriting insertion into an association list (`set` semantics). -/
def assocSet {κ α : Type} [DecidableEq κ] (k : κ) (v : α) (l : List (κ × α)) :
    List (κ × α) :=
  (k, v) :: l.filter (fun e => decide (¬ e.1 = k))

/-- Removal from an association list (`delete` semantics). -/
def assocRemove {κ α : Type} [DecidableEq κ] (k : κ) (l : List (κ × α)) :
    List (κ × α) :=
  l.filter (fun e => decide (¬ e.1 = k))

/-- Stored listings owned by one search. -/
def propsOf (s : Store) (searchId : String) : List StoredListing :=
  (s.props.filter (fun e => decide (e.1.1 = searchId))).map (·.2)

/-- Source ids of the `properties` subcollection documents of one search,
the document list read by `deleteSearch`. -/
def propIdsOf (s : Store) (searchId : String) : List String :=
  (s.props.filter (fun e => decide (e.1.1 = searchId))).map (·.1.2)

/-- One operation of a Firestore write batch, as used by
`createSearchWithResults`. -/
inductive WriteOp where
  | setSearch (searchId : String) (doc : SearchDoc)
  | setCacheDoc (key : String) (doc : CacheDoc)
  | setProp (searchId sourceId : String) (v : StoredListing)
deriving Repr

/-- Apply one batched write to the store.  The cache write carries
`{ merge: true }` in the source, but every field of the pointer document
is written, so the merge coincides with an overwrite. -/
def applyOp (s : Store) : WriteOp → Store
  | .setSearch searchId doc => { s with searches := assocSet searchId doc s.searches }
  | .setCacheDoc key doc => { s with cache := assocSet key doc s.cache }
  | .setProp searchId sourceId v =>
    { s with props := assocSet (searchId, sourceId) v s.props }

/-- Atomic commit of a batch: all operations apply, or (commit failure)
none do. -/
def commitBatch (s : Store) (batch : List WriteOp) (commitOk : Bool) : Store :=
  if commitOk then batch.foldl applyOp s else s

/-- Arguments of `createSearchWithResults`. -/
structure CreateParams where
  mode : SearchMode
  query : String
  queryKey : Option String
  source : String
  properties : List PropertyListing
deriving Repr

/-- JavaScript truthiness of the optional `params.queryKey`: an absent or
empty string is falsy. -/
def queryKeyTruthy (qk : Option String) : Option String :=
  match qk with
  | some k => if k = "" then none else some k
  | none => none

/-- The write batch assembled by `createSearchWithResults`: the
`SearchRecord`, the `CachePointer` when `params.queryKey` is truthy, and
one `properties/{sourceId}` document per listing. -/
def createBatch (p : CreateParams) (searchId : String) (now : Int) : List WriteOp :=
  [WriteOp.setSearch searchId
    { mode := p.mode, query := p.query, queryKey := queryKeyTruthy p.queryKey,
      source := p.source, resultCount := p.properties.length,
      createdAt := now, retrievedAt := now }] ++
  (match queryKeyTruthy p.queryKey with
   | some qk =>
     [WriteOp.setCacheDoc (p.mode.toKey ++ ":" ++ qk)
       { mode := p.mode, query := p.query, queryKey := qk, source := p.source,
         searchId := searchId, resultCount := p.properties.length,
         updatedAt := now }]
   | none => []) ++
  p.properties.map (fun prop =>
    WriteOp.setProp searchId prop.sourceId { listing := prop, retrievedAt := now })

/-- Embedding of `createSearchWithResults`: one batch, committed
atomically.  `searchId` is the fresh `randomUUID()`, `now` the
`Timestamp.now()`, `commitOk` whether `batch.commit()` succeeds; on
failure the call throws, returning no id and leaving the store
unchanged. -/
def createSearchWithResults (s : Store) (p : CreateParams) (searchId : String)
    (now : Int) (commitOk : Bool) : Store × Option String :=
  (commitBatch s (createBatch p searchId now) commitOk,
   if commitOk then some searchId else none)

/-- Embedding of `getSearch`: the record with its listing set, `none`
when the document does not exist. -/
def getSearch (s : Store) (searchId : String) :
    Option (SearchDoc × List StoredListing) :=
  match assocFind searchId s.searches with
  | none => none
  | some doc => some (doc, propsOf s searchId)

/-- Raw value of a loosely-typed Firestore field, as read from a cache
pointer document: a timestamp, a string, some other shape, at each use
narrowed exactly as the source narrows it. -/
inductive RawField where
  | ts (ms : Int)
  | str (s : String)
  | other
deriving Repr, DecidableEq

/-- A `searchCache` document as `findRecentSearchByQueryKey` reads it:
both fields may be absent or of the wrong type. -/
structure RawCacheDoc where
  updatedAt : Option RawField
  searchId : Option RawField
deriving Repr, DecidableEq

/-- The `updatedAt?.toMillis?.()` narrowing: a number only when the field
holds a timestamp. -/
def rawUpdatedAtMs (d : RawCacheDoc) : Option Int :=
  match d.updatedAt with
  | some (.ts ms) => some ms
  | _ => none

/-- The `typeof searchId === 'string' && searchId.trim()` narrowing: a
string with non-blank content. -/
def rawSearchIdStr (d : RawCacheDoc) : Option String :=
  match d.searchId with
  | some (.str s) => if trimS s = "" then none else some s
  | _ => none

/-- Environment of one `findRecentSearchByQueryKey` run: the outcome of
the `searchCache` read (`error` models a thrown Firestore error, `ok
none` an absent pointer), the store backing `getSearch`, failure flags
for the two reads `getSearch` performs, and the clock. -/
structure CacheLookupEnv where
  cacheRead : Except Unit (Option RawCacheDoc)
  store : Store
  searchReadFails : Bool
  propsReadFails : Bool
  nowMs : Int

/-- The `getSearch` call as observed through the environment: the
document read or the listing-set read may throw. -/
def getSearchE (env : CacheLookupEnv) (searchId : String) :
    Except Unit (Option (SearchDoc × List StoredListing)) :=
  if env.searchReadFails then .error ()
  else
    match assocFind searchId env.store.searches with
    | none => .ok none
    | some doc =>
      if env.propsReadFails then .error ()
      else .ok (some (doc, propsOf env.store searchId))

/-- Embedding of `findRecentSearchByQueryKey`.  Every `try`/`catch` of
the source is a `match` on an `Except`: the function is total and every
failure path returns `none` (a miss) rather than raising. -/
def findRecentSearchByQueryKey (env : CacheLookupEnv) (maxAgeMs : Int) :
    Option (String × List StoredListing) :=
  match env.cacheRead with
  | .error _ => none
  | .ok none => none
  | .ok (some raw) =>
    match rawUpdatedAtMs raw with
    | none => none
    | some updatedAtMs =>
      if env.nowMs - updatedAtMs > maxAgeMs then none
      else
        match rawSearchIdStr raw with
        | none => none
        | some searchId =>
          match getSearchE env searchId with
          | .error _ => none
          | .ok none => none
          | .ok (some (_, props)) => some (searchId, props)

/-- Environment of one `deleteSearch` run: whether the metadata read for
cache cleanup throws (swallowed) and whether the cache-pointer delete
throws (swallowed). -/
structure DeleteEnv where
  metaReadFails : Bool
  cacheDelFails : Bool
deriving Repr, DecidableEq

/-- Cache key derivable from a search record, per `deleteSearch`: the
record must exist, its mode is one of the two modes (always true of the
typed model) and its `queryKey` a non-blank string. -/
def deriveCacheKey (s : Store) (searchId : String) : Option String :=
  match assocFind searchId s.searches with
  | none => none
  | some doc =>
    match doc.queryKey with
    | some qk => if trimS qk ≠ "" then some (doc.mode.toKey ++ ":" ++ qk) else none
    | none => none

/-- Chunks of at most 450 elements, as the `while (index < docs.length)`
batching loop slices the property documents; fuel `l.length` always
suffices. -/
def chunksF {α : Type} : Nat → List α → List (List α)
  | _, [] => []
  | 0, _ :: _ => []
  | fuel + 1, l@(_ :: _) => l.take 450 :: chunksF fuel (l.drop 450)

/-- The chunked slices of the property-document list. -/
def chunks450 {α : Type} (l : List α) : List (List α) := chunksF l.length l

/-- The chunked property-document deletion loop of `deleteSearch`: one
batch of at most 450 deletes per chunk. -/
def deletePropsChunked (s : Store) (searchId : String) : Store :=
  (chunks450 (propIdsOf s searchId)).foldl
    (fun st chunk => chunk.foldl
      (fun st2 d => { st2 with props := assocRemove (searchId, d) st2.props }) st) s

/-- Embedding of `deleteSearch`: read the record's metadata (best-effort)
to derive the cache key, delete the owned property documents in batches
of at most 450, delete the record, then best-effort delete the cache
pointer; a failing metadata read or pointer delete is swallowed and never
undoes the deletion. -/
def deleteSearch (s : Store) (searchId : String) (env : DeleteEnv) : Store :=
  let cacheKey := if env.metaReadFails then none else deriveCacheKey s searchId
  let s1 := deletePropsChunked s searchId
  let s2 := { s1 with searches := assocRemove searchId s1.searches }
  match cacheKey with
  | some k =>
    if env.cacheDelFails then s2 else { s2 with cache := assocRemove k s2.cache }
  | none => s2

end Repo

/-! ## apps/api/src/routes/search.ts — POST /v1/search, address branch -/

namespace SearchRoute

/-- Outcome of the address branch of the `POST /v1/search` handler:
HTTP status, whether `X-Cache: HIT` was set, and the
`createSearchWithResults` calls issued. -/
structure AddressRouteResult where
  status : Nat
  xCacheHit : Bool
  createCalls : List Repo.CreateParams
deriving Repr

/-- Embedding of the address branch of the handler: serve a cache hit,
else consult the provider; a `null` provider result responds 404 and
persists nothing; otherwise one record with the single listing is
created. -/
def postSearchAddress (address : String)
    (cacheRes : Option (String × List PropertyListing))
    (providerRes : Option PropertyListing) : AddressRouteResult :=
  match cacheRes with
  | some _ => ⟨200, true, []⟩
  | none =>
    match providerRes with
    | none => ⟨404, false, []⟩
    | some r =>
      ⟨200, false,
        [{ mode := .address, query := address,
           queryKey := some (makeAddressQueryKey address), source := "repliers",
           properties := [r] }]⟩

/-- Replay of the repository writes a handler issued: each recorded
`createSearchWithResults` call applied in order (with ids, clock and
commit outcome supplied). -/
def applyCreateCalls (s : Repo.Store) (calls : List Repo.CreateParams)
    (sid : String) (now : Int) (commitOk : Bool) : Repo.Store :=
  calls.foldl (fun st c => (Repo.createSearchWithResults st c sid now commitOk).1) s

end SearchRoute

/-- Concrete listing fixture used by witness instantiations. -/
def listingA : PropertyListing :=
  { source := "repliers", sourceId := "a1", address := "1 A St",
    price := some 100, beds := none, baths := none, sqft := none,
    photos := [] }

/-- Concrete listing fixture used by witness instantiations. -/
def listingB : PropertyListing :=
  { source := "repliers", sourceId := "b2", address := "2 B St",
    price := none, beds := some 3, baths := none, sqft := none,
    photos := [] }

/-- Concrete `createSearchWithResults` argument fixture. -/
def createFixture : Repo.CreateParams :=
  { mode := Repo.SearchMode.city, query := "Austin, TX",
    queryKey := some "ck", source := "repliers",
    properties := [listingA, listingB] }

/-- Concrete store fixture used by witness instantiations: one search
record with two owned listings and its cache pointer. -/
def storeFixture : Repo.Store :=
  { searches := [("s1",
      { mode := Repo.SearchMode.address, query := "123 Main St",
        queryKey := some "address:123 main st", source := "repliers",
        resultCount := 2, createdAt := 0, retrievedAt := 0 })],
    props := [(("s1", "a1"), { listing := listingA, retrievedAt := 0 }),
              (("s1", "b2"), { listing := listingB, retrievedAt := 0 })],
    cache := [("address:address:123 main st",
      { mode := Repo.SearchMode.address, query := "123 Main St",
        queryKey := "address:123 main st", source := "repliers",
        searchId := "s1", resultCount := 2, updatedAt := 0 })] }

/-- Raw structured listing fixture matching the spec's address
scenario. -/
def rawMainListing : Repliers.JVal :=
  Repliers.JVal.obj [
    ("id", Repliers.JVal.str "x1"),
    ("address", Repliers.JVal.obj [
      ("streetNumber", Repliers.JVal.str "123"),
      ("streetName", Repliers.JVal.str "Main"),
      ("streetSuffix", Repliers.JVal.str "St"),
      ("city", Repliers.JVal.str "Austin"),
      ("state", Repliers.JVal.str "TX"),
      ("postalCode", Repliers.JVal.str "78701")]),
    ("listPrice", Repliers.JVal.num (some 700000))]

/-- Provider fixture answering only the suffix-stripped candidate
`"Main"`, the spec's fallback scenario. -/
def addressProvFixture : String → Repliers.JVal := fun name =>
  if name == "Main" then Repliers.JVal.arr [rawMainListing]
  else Repliers.JVal.obj []

/-- Provider fixture whose first candidate returns a listing with no
address fields followed by one with address `"5 Oak"`. -/
def blankFirstProvFixture : String → Repliers.JVal := fun name =>
  if name == "Main St" then
    Repliers.JVal.arr [Repliers.JVal.obj [],
      Repliers.JVal.obj [("address", Repliers.JVal.str "5 Oak")]]
  else Repliers.JVal.obj []

/-- Suffix of a character list after its last `'|'` (the whole list when
no bar occurs); used to separate the `limit:` segment of a city query
key. -/
def afterLastBar (l : List Char) : List Char :=
  (l.reverse.takeWhile (fun c => !(c = '|'))).reverse

/-! ## Supporting lemmas -/

theorem length_dropWhile_le {α : Type} (p : α → Bool) (l : List α) :
    (l.dropWhile p).length ≤ l.length := by
  induction l with
  | nil => simp
  | cons c cs ih =>
    by_cases h : p c
    · simp only [List.dropWhile_cons, h, if_true]
      exact Nat.le_trans ih (Nat.le_succ _)
    · simp [List.dropWhile_cons, h]

theorem dropWhile_append_all {α : Type} {p : α → Bool} {a : List α} (b : List α)
    (h : ∀ x ∈ a, p x = true) : (a ++ b).dropWhile p = b.dropWhile p := by
  induction a with
  | nil => rfl
  | cons c cs ih =>
    have hc : p c = true := h c (by simp)
    simp only [List.cons_append, List.dropWhile_cons, hc, if_true]
    exact ih (fun x hx => h x (by simp [hx]))

theorem takeWhile_append_all {α : Type} {p : α → Bool} {a : List α} (b : List α)
    (h : ∀ x ∈ a, p x = true) : (a ++ b).takeWhile p = a ++ b.takeWhile p := by
  induction a with
  | nil => rfl
  | cons c cs ih =>
    have hc : p c = true := h c (by simp)
    simp only [List.cons_append, List.takeWhile_cons, hc, if_true]
    rw [ih (fun x hx => h x (by simp [hx]))]

theorem dropWhile_append_of_not_all {α : Type} {p : α → Bool} {a : List α}
    (b : List α) (h : a.dropWhile p ≠ []) :
    (a ++ b).dropWhile p = a.dropWhile p ++ b := by
  rw [List.dropWhile_append]
  have hE : (a.dropWhile p).isEmpty = false := by
    simpa [List.isEmpty_iff] using h
  simp [hE]

theorem mem_dropWhile_of_mem {α : Type} {p : α → Bool} {l : List α} :
    ∀ x ∈ l.dropWhile p, x ∈ l := by
  induction l with
  | nil => simp
  | cons c cs ih =>
    intro x hx
    by_cases h : p c
    · simp only [List.dropWhile_cons, h, if_true] at hx
      exact List.mem_cons_of_mem _ (ih x hx)
    · simp only [List.dropWhile_cons, h] at hx
      simpa using hx

theorem head_dropWhile_false {α : Type} {p : α → Bool} {l : List α} {x : α}
    {xs : List α} (h : l.dropWhile p = x :: xs) : p x = false := by
  induction l with
  | nil => simp at h
  | cons c cs ih =>
    by_cases hc : p c
    · simp only [List.dropWhile_cons, hc, if_true] at h
      exact ih h
    · simp only [List.dropWhile_cons, hc, if_false] at h
      cases h
      simpa using hc

theorem trimTail_append_ws {a b : List Char} (h : ∀ x ∈ b, isWs x = true) :
    trimTail (a ++ b) = trimTail a := by
  unfold trimTail
  rw [List.reverse_append, dropWhile_append_all _ (by
    intro x hx
    exact h x (by simpa using hx))]

theorem trimTail_all_ws {l : List Char} (h : ∀ x ∈ l, isWs x = true) :
    trimTail l = [] := by
  unfold trimTail
  rw [List.dropWhile_eq_nil_iff.mpr (by
    intro x hx
    exact h x (List.mem_reverse.mp hx))]
  rfl

theorem dropWhile_eq_self_of_all_false {α : Type} {p : α → Bool} {l : List α}
    (h : ∀ x ∈ l, p x = false) : l.dropWhile p = l := by
  cases l with
  | nil => rfl
  | cons c cs => simp [List.dropWhile_cons, h c (by simp)]

theorem trimTail_no_ws {l : List Char} (h : ∀ x ∈ l, isWs x = false) :
    trimTail l = l := by
  unfold trimTail
  rw [dropWhile_eq_self_of_all_false (by
    intro x hx
    exact h x (List.mem_reverse.mp hx))]
  exact List.reverse_reverse l

theorem trimTail_cons_of_head {x : Char} {xs : List Char} (h : isWs x = false) :
    trimTail (x :: xs) = x :: trimTail xs := by
  unfold trimTail
  rw [show (x :: xs).reverse = xs.reverse ++ [x] by simp]
  by_cases hE : xs.reverse.dropWhile isWs = []
  · rw [List.dropWhile_append]
    simp only [hE, List.isEmpty_nil, if_true]
    simp [List.dropWhile_cons, h]
  · rw [dropWhile_append_of_not_all _ hE]
    simp

theorem splitWordsF_fuel : ∀ (f1 f2 : Nat) (l : List Char), l.length ≤ f1 →
    l.length ≤ f2 → splitWordsF f1 l = splitWordsF f2 l := by
  intro f1
  induction f1 with
  | zero =>
    intro f2 l h1 _
    have : l = [] := List.length_eq_zero.mp (Nat.le_zero.mp h1)
    subst this
    cases f2 <;> rfl
  | succ f ih =>
    intro f2 l h1 h2
    cases l with
    | nil => cases f2 <;> rfl
    | cons c cs =>
      cases f2 with
      | zero => exact absurd h2 (by simp)
      | succ f2' =>
        simp only [splitWordsF]
        have hcs : cs.length ≤ f := by simpa using h1
        have hcs2 : cs.length ≤ f2' := by simpa using h2
        by_cases hw : isWs c
        · simp only [hw, if_true]
          exact ih f2' _
            (Nat.le_trans (length_dropWhile_le _ _) hcs)
            (Nat.le_trans (length_dropWhile_le _ _) hcs2)
        · simp only [hw, Bool.false_eq_true, if_false]
          rw [ih f2' _
            (Nat.le_trans (length_dropWhile_le _ _) hcs)
            (Nat.le_trans (length_dropWhile_le _ _) hcs2)]

theorem splitWords_nil : splitWords [] = [] := rfl

theorem splitWords_cons_ws {c : Char} {cs : List Char} (h : isWs c = true) :
    splitWords (c :: cs) = splitWords (cs.dropWhile isWs) := by
  unfold splitWords
  rw [show splitWordsF (c :: cs).length (c :: cs) =
      splitWordsF cs.length.succ (c :: cs) by rfl]
  simp only [splitWordsF, h, if_true]
  exact splitWordsF_fuel _ _ _
    (Nat.le_trans (length_dropWhile_le _ _) (Nat.le_refl _)) (Nat.le_refl _)

theorem splitWords_cons_word {c : Char} {cs : List Char} (h : isWs c = false) :
    splitWords (c :: cs) =
      (c :: cs.takeWhile notWs) :: splitWords (cs.dropWhile notWs) := by
  unfold splitWords
  rw [show splitWordsF (c :: cs).length (c :: cs) =
      splitWordsF cs.length.succ (c :: cs) by rfl]
  simp only [splitWordsF, h, Bool.false_eq_true, if_false]
  rw [splitWordsF_fuel cs.length (cs.dropWhile notWs).length _
    (length_dropWhile_le _ _) (Nat.le_refl _)]

theorem splitWords_dropWhile_ws (l : List Char) :
    splitWords (l.dropWhile isWs) = splitWords l := by
  cases l with
  | nil => rfl
  | cons c cs =>
    by_cases h : isWs c
    · rw [splitWords_cons_ws h]
      simp [List.dropWhile_cons, h]
    · simp [List.dropWhile_cons, h]

theorem splitWords_all_ws {l : List Char} (h : ∀ x ∈ l, isWs x = true) :
    splitWords l = [] := by
  cases l with
  | nil => rfl
  | cons c cs =>
    rw [splitWords_cons_ws (h c (by simp))]
    rw [List.dropWhile_eq_nil_iff.mpr (fun x hx => h x (by simp [hx]))]
    rfl

theorem collapseWs_two (c d : Char) (rest : List Char) :
    collapseWs (c :: d :: rest) =
      if isWs c then
        (if isWs d then collapseWs (d :: rest) else ' ' :: collapseWs (d :: rest))
      else c :: collapseWs (d :: rest) := rfl

theorem collapseWs_cons_not_ws {c : Char} (l : List Char) (hc : isWs c = false) :
    collapseWs (c :: l) = c :: collapseWs l := by
  cases l with
  | nil => simp [collapseWs, hc]
  | cons d rest => rw [collapseWs_two, if_neg (by simp [hc])]

theorem collapseWs_cons_ws_cons_ws {c d : Char} (rest : List Char)
    (hc : isWs c = true) (hd : isWs d = true) :
    collapseWs (c :: d :: rest) = collapseWs (d :: rest) := by
  rw [collapseWs_two, if_pos hc, if_pos hd]

theorem collapseWs_cons_ws_cons_not {c d : Char} (rest : List Char)
    (hc : isWs c = true) (hd : isWs d = false) :
    collapseWs (c :: d :: rest) = ' ' :: collapseWs (d :: rest) := by
  rw [collapseWs_two, if_pos hc, if_neg (by simp [hd])]

theorem collapseWs_no_ws_app {t : List Char} (r : List Char)
    (h : ∀ x ∈ t, isWs x = false) : collapseWs (t ++ r) = t ++ collapseWs r := by
  induction t with
  | nil => rfl
  | cons c cs ih =>
    have hc : isWs c = false := h c (by simp)
    rw [List.cons_append, collapseWs_cons_not_ws _ hc,
      ih (fun x hx => h x (by simp [hx]))]
    rfl

theorem collapseWs_ws_run : ∀ (g : List Char) (x : Char) (r : List Char),
    (∀ y ∈ g, isWs y = true) → g ≠ [] → isWs x = false →
    collapseWs (g ++ x :: r) = ' ' :: collapseWs (x :: r)
  | [], _, _, _, hne, _ => absurd rfl hne
  | [w], x, r, hg, _, hx => by
    rw [List.cons_append, List.nil_append,
      collapseWs_cons_ws_cons_not r (hg w (by simp)) hx]
  | w :: w2 :: ws2, x, r, hg, _, hx => by
    have hrec := collapseWs_ws_run (w2 :: ws2) x r
      (fun y hy => hg y (by simp [hy])) (by simp) hx
    have hstep : collapseWs ((w :: w2 :: ws2) ++ x :: r) =
        collapseWs ((w2 :: ws2) ++ x :: r) := by
      have := collapseWs_cons_ws_cons_ws (ws2 ++ x :: r)
        (hg w (by simp)) (hg w2 (by simp))
      simpa using this
    rw [hstep, hrec]

theorem trimTail_append_keep {a b : List Char}
    (hx : b.reverse.dropWhile isWs ≠ []) :
    trimTail (a ++ b) = a ++ trimTail b := by
  unfold trimTail
  rw [List.reverse_append, dropWhile_append_of_not_all _ hx,
    List.reverse_append, List.reverse_reverse]

theorem joinWords_cons_ne {w : List Char} {W : List (List Char)} (h : W ≠ []) :
    joinWords (w :: W) = w ++ ' ' :: joinWords W := by
  cases W with
  | nil => exact absurd rfl h
  | cons w2 ws => rfl

theorem collapse_trim_eq_join_aux : ∀ (n : Nat) (l : List Char), l.length ≤ n →
    collapseWs (trimBoth l) = joinWords (splitWords l) := by
  intro n
  induction n with
  | zero =>
    intro l h
    have hl : l = [] := List.length_eq_zero.mp (Nat.le_zero.mp h)
    subst hl
    rfl
  | succ n ih =>
    intro l hlen
    cases l with
    | nil => rfl
    | cons c cs =>
      have hcslen : cs.length ≤ n := by simpa using hlen
      by_cases hw : isWs c = true
      · have h1 : trimBoth (c :: cs) = trimBoth cs := by
          unfold trimBoth trimHead
          rw [List.dropWhile_cons, if_pos hw]
        rw [h1, splitWords_cons_ws hw, splitWords_dropWhile_ws]
        exact ih cs hcslen
      · replace hw : isWs c = false := by simpa using hw
        have hTrimHead : trimHead (c :: cs) = c :: cs := by
          unfold trimHead
          rw [List.dropWhile_cons, if_neg (by simp [hw])]
        have hTB : trimBoth (c :: cs) = trimTail (c :: cs) := by
          unfold trimBoth
          rw [hTrimHead]
        have hsplit := @splitWords_cons_word c cs hw
        have hcs : cs.takeWhile notWs ++ cs.dropWhile notWs = cs :=
          List.takeWhile_append_dropWhile notWs cs
        have ht : ∀ x ∈ cs.takeWhile notWs, isWs x = false := by
          intro x hx
          have := List.mem_takeWhile_imp hx
          simpa [notWs] using this
        have hctNoWs : ∀ x ∈ c :: cs.takeWhile notWs, isWs x = false := by
          intro x hx
          rcases List.mem_cons.mp hx with h | h
          · subst h; exact hw
          · exact ht x h
        cases hd2 : (cs.dropWhile notWs).dropWhile isWs with
        | nil =>
          have hdws : ∀ x ∈ cs.dropWhile notWs, isWs x = true :=
            List.dropWhile_eq_nil_iff.mp hd2
          have htt : trimTail (c :: cs) = c :: cs.takeWhile notWs := by
            rw [show c :: cs = (c :: cs.takeWhile notWs) ++ cs.dropWhile notWs by
              simp [hcs]]
            rw [trimTail_append_ws hdws, trimTail_no_ws hctNoWs]
          rw [hTB, htt, hsplit, splitWords_all_ws hdws]
          have hcol : collapseWs (c :: cs.takeWhile notWs) = c :: cs.takeWhile notWs := by
            have := @collapseWs_no_ws_app (c :: cs.takeWhile notWs) [] hctNoWs
            have h0 : collapseWs ([] : List Char) = [] := rfl
            simpa [h0] using this
          rw [hcol]
          rfl
        | cons x xs =>
          have hx : isWs x = false := head_dropWhile_false hd2
          have hgd : (cs.dropWhile notWs).takeWhile isWs ++
              (cs.dropWhile notWs).dropWhile isWs = cs.dropWhile notWs :=
            List.takeWhile_append_dropWhile isWs (cs.dropWhile notWs)
          have hgws : ∀ y ∈ (cs.dropWhile notWs).takeWhile isWs, isWs y = true :=
            fun y hy => List.mem_takeWhile_imp hy
          have hdne : cs.dropWhile notWs ≠ [] := by
            intro hnil
            rw [hnil] at hd2
            simp at hd2
          have hgne : (cs.dropWhile notWs).takeWhile isWs ≠ [] := by
            rcases hd : cs.dropWhile notWs with _ | ⟨d0, ds⟩
            · exact absurd hd hdne
            · have hd0 : notWs d0 = false := head_dropWhile_false hd
              have hd0ws : isWs d0 = true := by simpa [notWs] using hd0
              rw [List.takeWhile_cons, if_pos hd0ws]
              simp
          have hrevne : (x :: xs).reverse.dropWhile isWs ≠ [] := by
            intro hnil
            have hall := List.dropWhile_eq_nil_iff.mp hnil
            have hxmem : x ∈ (x :: xs).reverse := by simp
            have := hall x hxmem
            simp [hx] at this
          have htt : trimTail (c :: cs) =
              ((c :: cs.takeWhile notWs) ++ (cs.dropWhile notWs).takeWhile isWs) ++
                trimTail (x :: xs) := by
            rw [show c :: cs = ((c :: cs.takeWhile notWs) ++
                (cs.dropWhile notWs).takeWhile isWs) ++ (x :: xs) by
              rw [List.append_assoc]
              simp only [List.cons_append]
              rw [← hd2, hgd, hcs]]
            rw [trimTail_append_keep hrevne]
          have htd2 : trimTail (x :: xs) = x :: trimTail xs :=
            trimTail_cons_of_head hx
          have hd2trim : trimBoth (x :: xs) = trimTail (x :: xs) := by
            unfold trimBoth trimHead
            rw [List.dropWhile_cons, if_neg (by simp [hx])]
          have hd2len : (x :: xs).length ≤ n := by
            rw [← hd2]
            exact Nat.le_trans (length_dropWhile_le _ _)
              (Nat.le_trans (length_dropWhile_le _ _) hcslen)
          have hihd2 := ih (x :: xs) hd2len
          have hcol : collapseWs (trimTail (c :: cs)) =
              (c :: cs.takeWhile notWs) ++ ' ' :: collapseWs (trimTail (x :: xs)) := by
            rw [htt, List.append_assoc,
              collapseWs_no_ws_app _ hctNoWs, htd2,
              collapseWs_ws_run _ x (trimTail xs) hgws hgne hx]
          have hsd2 : splitWords (cs.dropWhile notWs) = splitWords (x :: xs) := by
            rw [← splitWords_dropWhile_ws (cs.dropWhile notWs), hd2]
          have hsd2ne : splitWords (x :: xs) ≠ [] := by
            rw [splitWords_cons_word hx]
            simp
          rw [hTB, hcol, hsplit, hsd2, joinWords_cons_ne hsd2ne, ← hihd2,
            hd2trim, htd2]

theorem collapse_trim_eq_join (l : List Char) :
    collapseWs (trimBoth l) = joinWords (splitWords l) :=
  collapse_trim_eq_join_aux l.length l (Nat.le_refl _)

theorem map_case_joinWords (f : Char → Char) (hsp : f ' ' = ' ') :
    ∀ W : List (List Char), (joinWords W).map f = joinWords (W.map (List.map f))
  | [] => rfl
  | [w] => rfl
  | w :: w2 :: ws => by
    rw [joinWords_cons_ne (by simp), List.map_append, List.map_cons, hsp,
      map_case_joinWords f hsp (w2 :: ws), List.map_cons,
      ← joinWords_cons_ne (by simp)]
    rfl

theorem case_norm_eq {f : Char → Char} (hsp : f ' ' = ' ') {a b : String}
    (h : (splitWords a.data).map (List.map f) =
      (splitWords b.data).map (List.map f)) :
    (SearchRoute.normalizeWhitespace a).data.map f =
      (SearchRoute.normalizeWhitespace b).data.map f := by
  show (collapseWs (trimBoth a.data)).map f = (collapseWs (trimBoth b.data)).map f
  rw [collapse_trim_eq_join, collapse_trim_eq_join,
    map_case_joinWords f hsp, map_case_joinWords f hsp, h]

theorem digitChar_inj (a b : Nat) (ha : a < 10) (hb : b < 10) :
    Nat.digitChar a = Nat.digitChar b → a = b := by
  interval_cases a <;> interval_cases b <;> decide

theorem natDecF_fuel : ∀ (f1 f2 n : Nat), n < f1 → n < f2 →
    natDecF f1 n = natDecF f2 n := by
  intro f1
  induction f1 with
  | zero => omega
  | succ f ih =>
    intro f2 n h1 h2
    cases f2 with
    | zero => omega
    | succ f2' =>
      simp only [natDecF]
      by_cases hn : n < 10
      · simp [hn]
      · simp only [hn, if_false]
        have hdiv : n / 10 < n := Nat.div_lt_self (by omega) (by omega)
        rw [ih f2' (n / 10) (by omega) (by omega)]

theorem natDecF_step {n : Nat} (hn : 10 ≤ n) :
    natDecF (n + 1) n = natDecF (n / 10 + 1) (n / 10) ++
      [Nat.digitChar (n % 10)] := by
  have hdiv : n / 10 < n := Nat.div_lt_self (by omega) (by omega)
  have h1 : natDecF (n + 1) n = natDecF n (n / 10) ++ [Nat.digitChar (n % 10)] := by
    simp only [natDecF]
    rw [if_neg (show ¬ n < 10 by omega)]
  rw [h1, natDecF_fuel n (n / 10 + 1) (n / 10) hdiv (by omega)]

theorem natDecF_small {n : Nat} (hn : n < 10) :
    natDecF (n + 1) n = [Nat.digitChar n] := by
  simp only [natDecF]
  rw [if_pos hn]

theorem natDecF_ne_nil (n : Nat) : natDecF (n + 1) n ≠ [] := by
  simp only [natDecF]
  by_cases hn : n < 10 <;> simp [hn]

theorem natDecList_inj : ∀ n m : Nat, natDecF (n + 1) n = natDecF (m + 1) m →
    n = m := by
  intro n
  induction n using Nat.strong_induction_on with
  | _ n ih =>
    intro m h
    by_cases hn : n < 10 <;> by_cases hm : m < 10
    · rw [natDecF_small hn, natDecF_small hm] at h
      exact digitChar_inj n m hn hm (by simpa using h)
    · rw [natDecF_small hn, @natDecF_step m (by omega)] at h
      have hlen := congrArg List.length h
      simp only [List.length_append, List.length_singleton] at hlen
      have h0 : (natDecF (m / 10 + 1) (m / 10)).length = 0 := by omega
      exact absurd (List.length_eq_zero.mp h0) (natDecF_ne_nil (m / 10))
    · rw [natDecF_small hm, @natDecF_step n (by omega)] at h
      have hlen := congrArg List.length h
      simp only [List.length_append, List.length_singleton] at hlen
      have h0 : (natDecF (n / 10 + 1) (n / 10)).length = 0 := by omega
      exact absurd (List.length_eq_zero.mp h0) (natDecF_ne_nil (n / 10))
    · rw [@natDecF_step n (show 10 ≤ n by omega),
        @natDecF_step m (show 10 ≤ m by omega)] at h
      have hrev := congrArg List.reverse h
      simp only [List.reverse_append, List.reverse_singleton,
        List.singleton_append, List.cons.injEq] at hrev
      have hmod := digitChar_inj (n % 10) (m % 10)
        (Nat.mod_lt _ (by omega)) (Nat.mod_lt _ (by omega)) hrev.1
      have hdivlists : natDecF (n / 10 + 1) (n / 10) =
          natDecF (m / 10 + 1) (m / 10) := List.reverse_injective hrev.2
      have hdiv := ih (n / 10) (Nat.div_lt_self (by omega) (by omega))
        (m / 10) hdivlists
      omega

theorem natDec_inj {n m : Nat} (h : natDec n = natDec m) : n = m :=
  natDecList_inj n m (congrArg String.data h)

theorem natDecF_chars : ∀ (fuel n : Nat), ∀ c ∈ natDecF fuel n,
    ∃ d, d < 10 ∧ c = Nat.digitChar d := by
  intro fuel
  induction fuel with
  | zero => simp [natDecF]
  | succ f ih =>
    intro n c hc
    simp only [natDecF] at hc
    by_cases hn : n < 10
    · simp [hn] at hc
      exact ⟨n, hn, hc⟩
    · simp [hn] at hc
      rcases hc with hc | hc
      · exact ih _ c hc
      · exact ⟨n % 10, Nat.mod_lt _ (by omega), hc⟩

theorem digitChar_ne_bar {d : Nat} (hd : d < 10) : Nat.digitChar d ≠ '|' := by
  interval_cases d <;> decide

theorem afterLastBar_append {a b : List Char} (hb : ∀ x ∈ b, x ≠ '|') :
    afterLastBar (a ++ '|' :: b) = b := by
  unfold afterLastBar
  rw [show (a ++ '|' :: b).reverse = b.reverse ++ '|' :: a.reverse by simp]
  rw [takeWhile_append_all ('|' :: a.reverse) (by
    intro x hx
    simpa using hb x (List.mem_reverse.mp hx))]
  rw [List.takeWhile_cons]
  simp

theorem makeCityQueryKey_afterBar (c s : String) (l : Nat) :
    afterLastBar (SearchRoute.makeCityQueryKey c s l).data =
      "limit:".data ++ (natDec l).data := by
  have hform : (SearchRoute.makeCityQueryKey c s l).data =
      ("city:" ++ lowerS (SearchRoute.normalizeWhitespace c) ++ "|state:" ++
        upperS (SearchRoute.normalizeWhitespace s)).data ++
        ('|' :: ("limit:".data ++ (natDec l).data)) :=
    List.append_assoc
      ("city:" ++ lowerS (SearchRoute.normalizeWhitespace c) ++ "|state:" ++
        upperS (SearchRoute.normalizeWhitespace s)).data
      "|limit:".data (natDec l).data
  rw [hform]
  apply afterLastBar_append
  intro x hx
  rcases List.mem_append.mp hx with hx | hx
  · revert hx
    have : ∀ y ∈ "limit:".data, y ≠ '|' := by decide
    exact this x
  · rcases natDecF_chars _ _ x hx with ⟨d, hd, rfl⟩
    exact digitChar_ne_bar hd

/-- Claim C3 (corrected): `makeAddressQueryKey` and `makeCityQueryKey`
are pure and deterministic; requests whose address (or city) fields agree
up to letter case, leading/trailing whitespace and internal whitespace
runs (equal lowercased word lists) get equal keys, as do city requests
whose states agree up to case and whitespace; different effective limits
always give different city keys; and the key formulas hold with the state
whitespace-collapsed (not merely trimmed, where the claim deviates from
the code). -/
theorem normalizeKey_properties :
    (∀ a b : String, wordsLower a = wordsLower b →
      SearchRoute.makeAddressQueryKey a = SearchRoute.makeAddressQueryKey b) ∧
    (∀ c1 s1 c2 s2 : String, ∀ l : Nat, wordsLower c1 = wordsLower c2 →
      wordsUpper s1 = wordsUpper s2 →
      SearchRoute.makeCityQueryKey c1 s1 l = SearchRoute.makeCityQueryKey c2 s2 l) ∧
    (∀ c1 s1 l1 c2 s2 l2, l1 ≠ l2 →
      SearchRoute.makeCityQueryKey c1 s1 l1 ≠ SearchRoute.makeCityQueryKey c2 s2 l2) ∧
    (∀ a, SearchRoute.makeAddressQueryKey a =
      "address:" ++ lowerS (SearchRoute.normalizeWhitespace a)) ∧
    (∀ c s l, SearchRoute.makeCityQueryKey c s l =
      "city:" ++ lowerS (SearchRoute.normalizeWhitespace c) ++ "|state:" ++
        upperS (SearchRoute.normalizeWhitespace s) ++ "|limit:" ++ natDec l) := by
  refine ⟨?_, ?_, ?_, fun a => rfl, fun c s l => rfl⟩
  · intro a b h
    have hl := @case_norm_eq Char.toLower (by decide) a b h
    show "address:" ++ lowerS (SearchRoute.normalizeWhitespace a) = _
    unfold lowerS
    rw [hl]
    rfl
  · intro c1 s1 c2 s2 l hc hs
    have hcl := @case_norm_eq Char.toLower (by decide) c1 c2 hc
    have hsu := @case_norm_eq Char.toUpper (by decide) s1 s2 hs
    show "city:" ++ lowerS (SearchRoute.normalizeWhitespace c1) ++ "|state:" ++
      upperS (SearchRoute.normalizeWhitespace s1) ++ "|limit:" ++ natDec l = _
    unfold lowerS upperS
    rw [hcl, hsu]
    rfl
  · intro c1 s1 l1 c2 s2 l2 hne h
    apply hne
    apply natDecList_inj
    have h1 := makeCityQueryKey_afterBar c1 s1 l1
    have h2 := makeCityQueryKey_afterBar c2 s2 l2
    rw [h] at h1
    have := h1.symm.trans h2
    exact List.append_cancel_left this

/-- Witness for C3: concrete instances of the three conditional parts. -/
theorem normalizeKey_properties_witness :
    SearchRoute.makeAddressQueryKey "  123   Main  St " =
      SearchRoute.makeAddressQueryKey "123 MAIN st" ∧
    SearchRoute.makeCityQueryKey "Nashville" " tn " 25 =
      SearchRoute.makeCityQueryKey "  NASHVILLE" "TN" 25 ∧
    SearchRoute.makeCityQueryKey "Nashville" "TN" 25 ≠
      SearchRoute.makeCityQueryKey "Nashville" "TN" 100 :=
  ⟨normalizeKey_properties.1 _ _ (by decide),
   normalizeKey_properties.2.1 _ _ _ _ _ (by decide) (by decide),
   normalizeKey_properties.2.2.1 _ _ _ _ _ _ (by decide)⟩

/-- Counterexample for C3 as stated: on a state containing an internal
whitespace run the code collapses the run (`normalizeWhitespace(state)`)
while the claim's formula only trims, so the two formulas disagree. -/
theorem makeCityQueryKey_state_collapse_deviation :
    SearchRoute.makeCityQueryKeySpec "Austin" "T  X" 100 ≠
      SearchRoute.makeCityQueryKey "Austin" "T  X" 100 := by decide

/-- Claim C10 (confirmed): the numeric extractor maps an empty or
whitespace-only string field to "unknown" (`none`), never to `0` —
blank strings are rejected before any numeric coercion. -/
theorem getNumeric_blank_absent (fields : List (String × Repliers.JVal))
    (key s : String) (hfield : Repliers.objGet fields key = some (.str s))
    (hblank : trimS s = "") :
    Repliers.getNumeric fields key = none ∧
      Repliers.getNumeric fields key ≠ some 0 := by
  have h : Repliers.getNumeric fields key = none := by
    unfold Repliers.getNumeric
    rw [hfield]
    simp [hblank]
  exact ⟨h, by simp [h]⟩

/-- Witness for C10 at a whitespace-only `price` field. -/
theorem getNumeric_blank_absent_witness :
    trimS "   " = "" ∧
    Repliers.getNumeric [("price", Repliers.JVal.str "   ")] "price" = none :=
  ⟨by decide,
   (getNumeric_blank_absent [("price", Repliers.JVal.str "   ")] "price" "   "
     rfl (by decide)).1⟩

/-- Claim C7 (confirmed): an address-mode input whose first
comma-separated segment has no leading street number (the
`/^\s*(\d+)\s+(.*?)\s*$/` extraction fails) yields not-found with no
provider request issued. -/
theorem searchByAddress_no_leading_number (q : String)
    (pf : String → Repliers.JVal) (uuid : Nat → String)
    (h : Repliers.parseStreet (Repliers.firstLineOf q) = none) :
    Repliers.searchByAddress q pf uuid = ([], none) := by
  unfold Repliers.searchByAddress Repliers.addressPlan
  rw [h]

/-- Witness for C7 at the spec's own example input. -/
theorem searchByAddress_no_leading_number_witness :
    Repliers.searchByAddress "Main St, Austin, TX"
      (fun _ => Repliers.JVal.obj []) (fun _ => "u") = ([], none) :=
  searchByAddress_no_leading_number _ _ _ (by decide)

/-- Claim C8 (confirmed): when the address-mode provider search reports
not-found (after a cache miss), the handler responds 404 and issues no
repository write: no `createSearchWithResults` call is recorded, so no
`SearchRecord`, listing or `CachePointer` is created or updated on any
store. -/
theorem addressRoute_notFound_writes_nothing (address : String) :
    (SearchRoute.postSearchAddress address none none).status = 404 ∧
    (SearchRoute.postSearchAddress address none none).createCalls = [] ∧
    (∀ s : Repo.Store, ∀ sid : String, ∀ now : Int, ∀ commitOk : Bool,
      SearchRoute.applyCreateCalls s
        (SearchRoute.postSearchAddress address none none).createCalls
        sid now commitOk = s) :=
  ⟨rfl, rfl, fun _ _ _ _ => rfl⟩

/-- Claim C1 (confirmed): `findRecentSearchByQueryKey` is total (every
`try`/`catch` path returns a miss rather than raising) and produces a hit
exactly when the pointer read succeeds with a present document carrying a
valid timestamp within the 15-minute window and a non-blank string
`searchId` whose `SearchRecord` exists with a readable listing set. -/
theorem findRecentSearchByQueryKey_hit_iff (env : Repo.CacheLookupEnv) :
    (∃ r, Repo.findRecentSearchByQueryKey env
        SearchRoute.RECENT_SEARCH_CACHE_MAX_AGE_MS = some r) ↔
    (∃ raw ms sid doc,
      env.cacheRead = .ok (some raw) ∧
      Repo.rawUpdatedAtMs raw = some ms ∧
      env.nowMs - ms ≤ SearchRoute.RECENT_SEARCH_CACHE_MAX_AGE_MS ∧
      Repo.rawSearchIdStr raw = some sid ∧
      env.searchReadFails = false ∧
      env.propsReadFails = false ∧
      Repo.assocFind sid env.store.searches = some doc) := by
  constructor
  · rintro ⟨r, hr⟩
    unfold Repo.findRecentSearchByQueryKey at hr
    split at hr
    · exact absurd hr (by simp)
    · exact absurd hr (by simp)
    case _ raw hcr =>
      split at hr
      · exact absurd hr (by simp)
      case _ ms hms =>
        split at hr
        · exact absurd hr (by simp)
        case _ hage =>
          split at hr
          · exact absurd hr (by simp)
          case _ sid hsid =>
            split at hr
            · exact absurd hr (by simp)
            · exact absurd hr (by simp)
            case _ doc props heq =>
              have hparts : env.searchReadFails = false ∧
                  env.propsReadFails = false ∧
                  Repo.assocFind sid env.store.searches = some doc := by
                unfold Repo.getSearchE at heq
                by_cases hsrf : env.searchReadFails
                · simp [hsrf] at heq
                · cases hdoc : Repo.assocFind sid env.store.searches with
                  | none => simp [hsrf, hdoc] at heq
                  | some d =>
                    by_cases hprf : env.propsReadFails
                    · simp [hsrf, hdoc, hprf] at heq
                    · simp only [hsrf, hdoc, hprf, Bool.false_eq_true,
                        if_false] at heq
                      simp at heq
                      refine ⟨by simp [hsrf], by simp [hprf], ?_⟩
                      rw [heq.1]
              exact ⟨raw, ms, sid, doc, hcr, hms, by omega, hsid,
                hparts.1, hparts.2.1, hparts.2.2⟩
  · rintro ⟨raw, ms, sid, doc, hcr, hms, hage, hsid, hsrf, hprf, hdoc⟩
    refine ⟨(sid, Repo.propsOf env.store sid), ?_⟩
    simp only [Repo.findRecentSearchByQueryKey, hcr, hms, hsid,
      Repo.getSearchE, hsrf, hdoc, hprf, Bool.false_eq_true, if_false]
    rw [if_neg (by omega)]

theorem assocFind_set_self {κ α : Type} [DecidableEq κ] (k : κ) (v : α)
    (l : List (κ × α)) : Repo.assocFind k (Repo.assocSet k v l) = some v := by
  simp [Repo.assocFind, Repo.assocSet, List.find?]

theorem assocFind_filter_other {κ α : Type} [DecidableEq κ] {k k' : κ}
    (h : ¬ k = k') (l : List (κ × α)) :
    Repo.assocFind k (l.filter (fun e => decide (¬ e.1 = k'))) =
      Repo.assocFind k l := by
  induction l with
  | nil => rfl
  | cons e rest ih =>
    by_cases he : e.1 = k'
    · have hek : decide (e.1 = k) = false := by
        simp only [decide_eq_false_iff_not]
        exact fun hx => h (hx.symm.trans he)
      rw [List.filter_cons, if_neg (by simp [he]), ih]
      unfold Repo.assocFind
      rw [List.find?_cons, hek]
    · rw [List.filter_cons, if_pos (by simp [he])]
      unfold Repo.assocFind
      rw [List.find?_cons, List.find?_cons]
      cases hdec : decide (e.1 = k)
      · exact ih
      · rfl

theorem assocFind_set_ne {κ α : Type} [DecidableEq κ] {k k' : κ} (h : ¬ k = k')
    (v : α) (l : List (κ × α)) :
    Repo.assocFind k (Repo.assocSet k' v l) = Repo.assocFind k l := by
  unfold Repo.assocSet
  unfold Repo.assocFind
  rw [List.find?_cons, show decide ((k', v).1 = k) = false by
    simp only [decide_eq_false_iff_not]
    exact fun hx => h hx.symm]
  exact assocFind_filter_other h l

theorem foldl_props_searches (sid : String) (now : Int) :
    ∀ (ps : List PropertyListing) (st : Repo.Store),
    ((ps.map (fun pr => Repo.WriteOp.setProp sid pr.sourceId
        { listing := pr, retrievedAt := now })).foldl Repo.applyOp st).searches =
      st.searches
  | [], _ => rfl
  | pr :: rest, st => by
    rw [List.map_cons, List.foldl_cons, foldl_props_searches sid now rest _]
    rfl

theorem foldl_props_cache (sid : String) (now : Int) :
    ∀ (ps : List PropertyListing) (st : Repo.Store),
    ((ps.map (fun pr => Repo.WriteOp.setProp sid pr.sourceId
        { listing := pr, retrievedAt := now })).foldl Repo.applyOp st).cache =
      st.cache
  | [], _ => rfl
  | pr :: rest, st => by
    rw [List.map_cons, List.foldl_cons, foldl_props_cache sid now rest _]
    rfl

theorem foldl_props_props (sid : String) (now : Int) :
    ∀ (ps : List PropertyListing) (st : Repo.Store),
    ((ps.map (fun pr => Repo.WriteOp.setProp sid pr.sourceId
        { listing := pr, retrievedAt := now })).foldl Repo.applyOp st).props =
      ps.foldl (fun acc q =>
        Repo.assocSet (sid, q.sourceId) { listing := q, retrievedAt := now } acc)
        st.props
  | [], _ => rfl
  | pr :: rest, st => by
    rw [List.map_cons, List.foldl_cons, List.foldl_cons,
      foldl_props_props sid now rest _]
    rfl

theorem assocFold_preserve (sid : String) (now : Int) :
    ∀ (ps : List PropertyListing)
      (pl : List ((String × String) × Repo.StoredListing))
      (k : String × String), (∀ q ∈ ps, ¬ (sid, q.sourceId) = k) →
    Repo.assocFind k (ps.foldl (fun acc q =>
        Repo.assocSet (sid, q.sourceId) { listing := q, retrievedAt := now } acc)
        pl) = Repo.assocFind k pl
  | [], _, _, _ => rfl
  | q0 :: rest, pl, k, h => by
    rw [List.foldl_cons,
      assocFold_preserve sid now rest _ k (fun q hq => h q (by simp [hq])),
      assocFind_set_ne (fun hx => h q0 (by simp) hx.symm)]

theorem assocFold_find (sid : String) (now : Int) :
    ∀ (ps : List PropertyListing)
      (pl : List ((String × String) × Repo.StoredListing)),
    (ps.map (·.sourceId)).Nodup → ∀ pr ∈ ps,
    Repo.assocFind (sid, pr.sourceId)
      (ps.foldl (fun acc q =>
        Repo.assocSet (sid, q.sourceId) { listing := q, retrievedAt := now } acc)
        pl) = some { listing := pr, retrievedAt := now }
  | [], _, _, pr, hpr => absurd hpr (by simp)
  | q0 :: rest, pl, hnd, pr, hpr => by
    have hnd2 : (∀ x ∈ rest, ¬ x.sourceId = q0.sourceId) ∧
        (rest.map (·.sourceId)).Nodup := by simpa using hnd
    rw [List.foldl_cons]
    rcases List.mem_cons.mp hpr with hpr | hpr
    · subst hpr
      rw [assocFold_preserve sid now rest _ _ (by
        intro q hq hx
        have hqs : q.sourceId = pr.sourceId := by
          have := congrArg Prod.snd hx
          simpa using this
        exact hnd2.1 q hq hqs)]
      exact assocFind_set_self _ _ _
    · exact assocFold_find sid now rest _ hnd2.2 pr hpr

theorem createCommit_projections (s : Repo.Store) (p : Repo.CreateParams)
    (sid : String) (now : Int) :
    (Repo.createSearchWithResults s p sid now true).1.searches =
      Repo.assocSet sid
        { mode := p.mode, query := p.query,
          queryKey := Repo.queryKeyTruthy p.queryKey, source := p.source,
          resultCount := p.properties.length, createdAt := now,
          retrievedAt := now } s.searches ∧
    (Repo.createSearchWithResults s p sid now true).1.cache =
      (match Repo.queryKeyTruthy p.queryKey with
       | some qk => Repo.assocSet (p.mode.toKey ++ ":" ++ qk)
           { mode := p.mode, query := p.query, queryKey := qk,
             source := p.source, searchId := sid,
             resultCount := p.properties.length, updatedAt := now } s.cache
       | none => s.cache) ∧
    (Repo.createSearchWithResults s p sid now true).1.props =
      p.properties.foldl (fun acc q =>
        Repo.assocSet (sid, q.sourceId) { listing := q, retrievedAt := now } acc)
        s.props := by
  cases hqk : Repo.queryKeyTruthy p.queryKey with
  | none =>
    have hshape : (Repo.createSearchWithResults s p sid now true).1 =
        (p.properties.map (fun pr => Repo.WriteOp.setProp sid pr.sourceId
          { listing := pr, retrievedAt := now })).foldl Repo.applyOp
          (Repo.applyOp s (Repo.WriteOp.setSearch sid
            { mode := p.mode, query := p.query, queryKey := none,
              source := p.source, resultCount := p.properties.length,
              createdAt := now, retrievedAt := now })) := by
      show Repo.commitBatch s (Repo.createBatch p sid now) true = _
      unfold Repo.commitBatch Repo.createBatch
      rw [hqk, if_pos rfl, List.foldl_append, List.foldl_append]
      rfl
    refine ⟨?_, ?_, ?_⟩
    · rw [hshape, foldl_props_searches sid now p.properties _]
      rfl
    · rw [hshape, foldl_props_cache sid now p.properties _]
      rfl
    · rw [hshape, foldl_props_props sid now p.properties _]
      rfl
  | some qk =>
    have hshape : (Repo.createSearchWithResults s p sid now true).1 =
        (p.properties.map (fun pr => Repo.WriteOp.setProp sid pr.sourceId
          { listing := pr, retrievedAt := now })).foldl Repo.applyOp
          (Repo.applyOp
            (Repo.applyOp s (Repo.WriteOp.setSearch sid
              { mode := p.mode, query := p.query, queryKey := some qk,
                source := p.source, resultCount := p.properties.length,
                createdAt := now, retrievedAt := now }))
            (Repo.WriteOp.setCacheDoc (p.mode.toKey ++ ":" ++ qk)
              { mode := p.mode, query := p.query, queryKey := qk,
                source := p.source, searchId := sid,
                resultCount := p.properties.length, updatedAt := now })) := by
      show Repo.commitBatch s (Repo.createBatch p sid now) true = _
      unfold Repo.commitBatch Repo.createBatch
      rw [hqk, if_pos rfl, List.foldl_append, List.foldl_append]
      rfl
    refine ⟨?_, ?_, ?_⟩
    · rw [hshape, foldl_props_searches sid now p.properties _]
      rfl
    · rw [hshape, foldl_props_cache sid now p.properties _]
      rfl
    · rw [hshape, foldl_props_props sid now p.properties _]
      rfl

/-- Claim C2 (corrected): a `createSearchWithResults` call is a single
all-or-nothing batch commit: on failure the store is unchanged and no id
is returned; on success the `SearchRecord`, every listing under its
`sourceId` (the data-model invariant makes these unique within one call)
and — when the given `queryKey` is non-empty — the `CachePointer` are all
present. -/
theorem createSearchWithResults_atomic (s : Repo.Store) (p : Repo.CreateParams)
    (sid : String) (now : Int)
    (hnd : (p.properties.map (·.sourceId)).Nodup) :
    ((Repo.createSearchWithResults s p sid now false).1 = s ∧
     (Repo.createSearchWithResults s p sid now false).2 = none) ∧
    (Repo.createSearchWithResults s p sid now true).2 = some sid ∧
    Repo.assocFind sid
      (Repo.createSearchWithResults s p sid now true).1.searches =
      some { mode := p.mode, query := p.query,
             queryKey := Repo.queryKeyTruthy p.queryKey, source := p.source,
             resultCount := p.properties.length, createdAt := now,
             retrievedAt := now } ∧
    (∀ pr ∈ p.properties,
      Repo.assocFind (sid, pr.sourceId)
        (Repo.createSearchWithResults s p sid now true).1.props =
        some { listing := pr, retrievedAt := now }) ∧
    (∀ qk, Repo.queryKeyTruthy p.queryKey = some qk →
      Repo.assocFind (p.mode.toKey ++ ":" ++ qk)
        (Repo.createSearchWithResults s p sid now true).1.cache =
        some { mode := p.mode, query := p.query, queryKey := qk,
               source := p.source, searchId := sid,
               resultCount := p.properties.length, updatedAt := now }) := by
  obtain ⟨hS, hC, hP⟩ := createCommit_projections s p sid now
  refine ⟨⟨rfl, rfl⟩, rfl, ?_, ?_, ?_⟩
  · rw [hS]
    exact assocFind_set_self _ _ _
  · intro pr hpr
    rw [hP]
    exact assocFold_find sid now p.properties s.props hnd pr hpr
  · intro qk hqk
    rw [hC, hqk]
    exact assocFind_set_self _ _ _

/-- Witness for C2 at a concrete two-listing city search. -/
theorem createSearchWithResults_atomic_witness :
    Repo.assocFind ("s1", "a1")
      (Repo.createSearchWithResults ⟨[], [], []⟩ createFixture "s1" 5 true).1.props =
      some { listing := listingA, retrievedAt := 5 } ∧
    Repo.assocFind (Repo.SearchMode.city.toKey ++ ":" ++ "ck")
      (Repo.createSearchWithResults ⟨[], [], []⟩ createFixture "s1" 5 true).1.cache =
      some { mode := Repo.SearchMode.city, query := "Austin, TX",
             queryKey := "ck", source := "repliers", searchId := "s1",
             resultCount := 2, updatedAt := 5 } ∧
    (Repo.createSearchWithResults ⟨[], [], []⟩ createFixture "s1" 5 false).1 =
      ⟨[], [], []⟩ :=
  ⟨(createSearchWithResults_atomic ⟨[], [], []⟩ createFixture "s1" 5
      (by decide)).2.2.2.1 listingA (by simp [createFixture]),
   (createSearchWithResults_atomic ⟨[], [], []⟩ createFixture "s1" 5
      (by decide)).2.2.2.2 "ck" (by decide),
   (createSearchWithResults_atomic ⟨[], [], []⟩ createFixture "s1" 5
      (by decide)).1.1⟩

/-- Counterexample for C2 as stated: the empty string is a given
`queryKey`, yet (being falsy in JavaScript) a successful commit writes no
`CachePointer` for it — the cache collection stays empty. -/
theorem createSearchWithResults_blank_queryKey_no_pointer :
    ({ mode := Repo.SearchMode.address, query := "q", queryKey := some "",
       source := "repliers", properties := [] } : Repo.CreateParams).queryKey ≠
      none ∧
    (Repo.createSearchWithResults ⟨[], [], []⟩
      { mode := Repo.SearchMode.address, query := "q", queryKey := some "",
        source := "repliers", properties := [] } "id1" 0 true).1.cache = [] :=
  ⟨by simp, rfl⟩

theorem foldl_chunks_eq {α β : Type} (g : β → α → β) :
    ∀ (L : List (List α)) (st : β),
    L.foldl (fun acc c => c.foldl g acc) st = L.flatten.foldl g st
  | [], _ => rfl
  | c :: rest, st => by
    rw [List.foldl_cons, List.flatten_cons, List.foldl_append,
      foldl_chunks_eq g rest _]

theorem chunksF_join {α : Type} : ∀ (fuel : Nat) (l : List α),
    l.length ≤ fuel → (Repo.chunksF fuel l).flatten = l := by
  intro fuel
  induction fuel with
  | zero =>
    intro l h
    have : l = [] := List.length_eq_zero.mp (Nat.le_zero.mp h)
    subst this
    rfl
  | succ f ih =>
    intro l h
    cases l with
    | nil => rfl
    | cons c cs =>
      show ((c :: cs).take 450 :: Repo.chunksF f ((c :: cs).drop 450)).flatten = c :: cs
      rw [List.flatten_cons, ih ((c :: cs).drop 450) (by
        rw [List.length_drop, List.length_cons]
        simp only [List.length_cons] at h
        omega)]
      exact List.take_append_drop _ _

theorem chunks450_join {α : Type} (l : List α) : (Repo.chunks450 l).flatten = l :=
  chunksF_join l.length l (Nat.le_refl _)

theorem chunksF_size {α : Type} : ∀ (fuel : Nat) (l : List α),
    ∀ c ∈ Repo.chunksF fuel l, c.length ≤ 450 := by
  intro fuel
  induction fuel with
  | zero =>
    intro l c hc
    cases l <;> simp [Repo.chunksF] at hc
  | succ f ih =>
    intro l c hc
    cases l with
    | nil => simp [Repo.chunksF] at hc
    | cons x xs =>
      rw [show Repo.chunksF (f + 1) (x :: xs) =
        (x :: xs).take 450 :: Repo.chunksF f ((x :: xs).drop 450) from rfl] at hc
      rcases List.mem_cons.mp hc with hc | hc
      · subst hc
        rw [List.length_take]
        omega
      · exact ih _ c hc

theorem chunks450_size {α : Type} (l : List α) :
    ∀ c ∈ Repo.chunks450 l, c.length ≤ 450 :=
  chunksF_size l.length l

theorem delFold_searches (sid : String) : ∀ (ids : List String) (st : Repo.Store),
    (ids.foldl (fun st2 d =>
      { st2 with props := Repo.assocRemove (sid, d) st2.props }) st).searches =
      st.searches
  | [], _ => rfl
  | d :: rest, st => by
    rw [List.foldl_cons, delFold_searches sid rest _]

theorem delFold_cache (sid : String) : ∀ (ids : List String) (st : Repo.Store),
    (ids.foldl (fun st2 d =>
      { st2 with props := Repo.assocRemove (sid, d) st2.props }) st).cache =
      st.cache
  | [], _ => rfl
  | d :: rest, st => by
    rw [List.foldl_cons, delFold_cache sid rest _]

theorem delFold_props (sid : String) : ∀ (ids : List String) (st : Repo.Store),
    (ids.foldl (fun st2 d =>
      { st2 with props := Repo.assocRemove (sid, d) st2.props }) st).props =
      ids.foldl (fun pl d => Repo.assocRemove (sid, d) pl) st.props
  | [], _ => rfl
  | d :: rest, st => by
    rw [List.foldl_cons, List.foldl_cons, delFold_props sid rest _]

theorem remFold_mem (sid : String) :
    ∀ (ids : List String) (pl : List ((String × String) × Repo.StoredListing))
      (e : (String × String) × Repo.StoredListing),
    e ∈ ids.foldl (fun pl2 d => Repo.assocRemove (sid, d) pl2) pl →
    e ∈ pl ∧ ∀ d ∈ ids, ¬ e.1 = (sid, d)
  | [], _, _, h => ⟨h, by simp⟩
  | d0 :: rest, pl, e, h => by
    rw [List.foldl_cons] at h
    obtain ⟨hmem, hrest⟩ := remFold_mem sid rest _ e h
    have hfilter := List.mem_filter.mp hmem
    refine ⟨hfilter.1, ?_⟩
    intro d hd
    rcases List.mem_cons.mp hd with hd | hd
    · subst hd
      have := hfilter.2
      simpa using this
    · exact hrest d hd

theorem assocFind_remove_self {κ α : Type} [DecidableEq κ] (k : κ)
    (l : List (κ × α)) : Repo.assocFind k (Repo.assocRemove k l) = none := by
  unfold Repo.assocFind Repo.assocRemove
  rw [List.find?_eq_none.mpr]
  · rfl
  · intro e he
    have := (List.mem_filter.mp he).2
    simp at this ⊢
    exact this

theorem deletePropsChunked_eq (s : Repo.Store) (sid : String) :
    Repo.deletePropsChunked s sid =
      (Repo.propIdsOf s sid).foldl
        (fun st2 d => { st2 with props := Repo.assocRemove (sid, d) st2.props })
        s := by
  unfold Repo.deletePropsChunked
  rw [foldl_chunks_eq, chunks450_join]

theorem deleteSearch_core (s : Repo.Store) (sid : String) (env : Repo.DeleteEnv) :
    (Repo.deleteSearch s sid env).searches = Repo.assocRemove sid s.searches ∧
    (Repo.deleteSearch s sid env).props =
      (Repo.propIdsOf s sid).foldl (fun pl d => Repo.assocRemove (sid, d) pl)
        s.props := by
  have hs1 : (Repo.deletePropsChunked s sid).searches = s.searches := by
    rw [deletePropsChunked_eq]
    exact delFold_searches sid _ s
  have hp1 : (Repo.deletePropsChunked s sid).props =
      (Repo.propIdsOf s sid).foldl (fun pl d => Repo.assocRemove (sid, d) pl)
        s.props := by
    rw [deletePropsChunked_eq]
    exact delFold_props sid _ s
  cases hmeta : env.metaReadFails <;>
    cases hkey : Repo.deriveCacheKey s sid <;>
      cases hdel : env.cacheDelFails
  all_goals
    simp only [Repo.deleteSearch, hmeta, hkey, hdel, Bool.false_eq_true,
      if_false, if_true]
  all_goals
    exact ⟨by rw [hs1], hp1⟩

theorem deleteSearch_cacheGone (s : Repo.Store) (sid : String)
    (env : Repo.DeleteEnv) (hm : env.metaReadFails = false)
    (hc : env.cacheDelFails = false) (k : String)
    (hk : Repo.deriveCacheKey s sid = some k) :
    Repo.assocFind k (Repo.deleteSearch s sid env).cache = none := by
  simp only [Repo.deleteSearch, hm, hk, hc, Bool.false_eq_true, if_false]
  exact assocFind_remove_self _ _

/-- Claim C4 (confirmed): `deleteSearch` removes every owned listing
(chunked in batches of at most 450 whose concatenation is the full
listing-id set, so deletion is complete regardless of size), removes the
record — a subsequent `getSearch` returns not-found — and best-effort
deletes the derivable `CachePointer`, swallowing metadata-read and
pointer-delete failures (the record and listing deletion holds for every
failure environment). -/
theorem deleteSearch_spec (s : Repo.Store) (sid : String)
    (env : Repo.DeleteEnv) :
    Repo.assocFind sid (Repo.deleteSearch s sid env).searches = none ∧
    Repo.propsOf (Repo.deleteSearch s sid env) sid = [] ∧
    Repo.getSearch (Repo.deleteSearch s sid env) sid = none ∧
    (∀ c ∈ Repo.chunks450 (Repo.propIdsOf s sid), c.length ≤ 450) ∧
    (Repo.chunks450 (Repo.propIdsOf s sid)).flatten = Repo.propIdsOf s sid ∧
    (env.metaReadFails = false → env.cacheDelFails = false →
      ∀ k, Repo.deriveCacheKey s sid = some k →
        Repo.assocFind k (Repo.deleteSearch s sid env).cache = none) := by
  obtain ⟨hsearch, hprops⟩ := deleteSearch_core s sid env
  have hfind : Repo.assocFind sid (Repo.deleteSearch s sid env).searches = none := by
    rw [hsearch]
    exact assocFind_remove_self _ _
  have hpempty : Repo.propsOf (Repo.deleteSearch s sid env) sid = [] := by
    unfold Repo.propsOf
    rw [hprops]
    have hfilter : ((Repo.propIdsOf s sid).foldl
        (fun pl d => Repo.assocRemove (sid, d) pl) s.props).filter
        (fun e => decide (e.1.1 = sid)) = [] := by
      rw [List.filter_eq_nil_iff]
      intro e he
      obtain ⟨hmem, hall⟩ := remFold_mem sid _ _ e he
      simp only [decide_eq_true_eq]
      intro hsid
      have hid : e.1.2 ∈ Repo.propIdsOf s sid := by
        unfold Repo.propIdsOf
        exact List.mem_map_of_mem _ (List.mem_filter.mpr ⟨hmem, by simp [hsid]⟩)
      exact hall e.1.2 hid (by rw [← hsid])
    rw [hfilter]
    rfl
  refine ⟨hfind, hpempty, ?_, chunks450_size _, chunks450_join _,
    fun hm hc k hk => deleteSearch_cacheGone s sid env hm hc k hk⟩
  unfold Repo.getSearch
  rw [hfind]

/-- Witness for C4 at a concrete store with one record and two owned
listings. -/
theorem deleteSearch_spec_witness :
    Repo.getSearch (Repo.deleteSearch storeFixture "s1" ⟨false, false⟩) "s1" =
      none ∧
    Repo.propsOf (Repo.deleteSearch storeFixture "s1" ⟨false, false⟩) "s1" =
      [] ∧
    Repo.assocFind "address:address:123 main st"
      (Repo.deleteSearch storeFixture "s1" ⟨false, false⟩).cache = none :=
  ⟨(deleteSearch_spec storeFixture "s1" ⟨false, false⟩).2.2.1,
   (deleteSearch_spec storeFixture "s1" ⟨false, false⟩).2.1,
   (deleteSearch_spec storeFixture "s1" ⟨false, false⟩).2.2.2.2.2 rfl rfl
     "address:address:123 main st" (by decide)⟩

theorem mapListingsFrom_length (uuid : Nat → String) :
    ∀ (i : Nat) (ls : List Repliers.JVal),
    (Repliers.mapListingsFrom uuid i ls).length = ls.length
  | _, [] => rfl
  | i, _ :: rest => by
    simp only [Repliers.mapListingsFrom, List.length_cons,
      mapListingsFrom_length uuid (i + 1) rest]

theorem mapListingsFrom_get (uuid : Nat → String) :
    ∀ (ls : List Repliers.JVal) (i j : Nat),
    (Repliers.mapListingsFrom uuid i ls)[j]? =
      (ls[j]?).map (fun l => Repliers.listingToProperty (uuid (i + j)) l)
  | [], _, _ => by simp [Repliers.mapListingsFrom]
  | l :: rest, i, 0 => by simp [Repliers.mapListingsFrom]
  | l :: rest, i, j + 1 => by
    simp only [Repliers.mapListingsFrom, List.getElem?_cons_succ]
    rw [mapListingsFrom_get uuid rest (i + 1) j]
    have : i + 1 + j = i + (j + 1) := by omega
    rw [this]

theorem take_getElem? {α : Type} :
    ∀ (l : List α) (k i : Nat), i < k → (l.take k)[i]? = l[i]?
  | [], _, _, _ => by simp
  | x :: xs, k + 1, 0, _ => by simp
  | x :: xs, k + 1, i + 1, h => by
    simp only [List.take_succ_cons, List.getElem?_cons_succ]
    exact take_getElem? xs k i (by omega)

/-- Claim C5 (corrected): `searchByCity` clamps the limit into `[1,100]`,
issues one request carrying the for-sale (`type=sale`) and active
(`status=A`) filters, and maps the returned records in provider order —
but only the first `cappedLimit` of them (`slice(0, cappedLimit)`), not
every returned record. -/
theorem searchByCity_spec (city state : String) (limit : Int)
    (payload : Repliers.JVal) (uuid : Nat → String) :
    (Repliers.searchByCity city state limit payload uuid).1.type = "sale" ∧
    (Repliers.searchByCity city state limit payload uuid).1.status = "A" ∧
    (Repliers.searchByCity city state limit payload uuid).1.pageSize =
      min (max limit 1) 100 ∧
    1 ≤ (Repliers.searchByCity city state limit payload uuid).1.pageSize ∧
    (Repliers.searchByCity city state limit payload uuid).1.pageSize ≤ 100 ∧
    (Repliers.searchByCity city state limit payload uuid).2 =
      Repliers.mapListings uuid
        ((Repliers.getListingArray payload).take (min (max limit 1) 100).toNat) ∧
    (Repliers.searchByCity city state limit payload uuid).2.length =
      min (min (max limit 1) 100).toNat
        (Repliers.getListingArray payload).length ∧
    (∀ i : Nat,
      i < (Repliers.searchByCity city state limit payload uuid).2.length →
      (Repliers.searchByCity city state limit payload uuid).2[i]? =
        ((Repliers.getListingArray payload)[i]?).map
          (fun l => Repliers.listingToProperty (uuid i) l)) := by
  refine ⟨rfl, rfl, rfl, ?_, ?_, rfl, ?_, ?_⟩
  · show (1 : Int) ≤ min (max limit 1) 100
    omega
  · show min (max limit 1) 100 ≤ (100 : Int)
    omega
  · show (Repliers.mapListingsFrom uuid 0
        ((Repliers.getListingArray payload).take
          (min (max limit 1) 100).toNat)).length = _
    rw [mapListingsFrom_length, List.length_take]
  · intro i hi
    have hlen : (Repliers.searchByCity city state limit payload uuid).2.length =
        min (min (max limit 1) 100).toNat
          (Repliers.getListingArray payload).length := by
      show (Repliers.mapListingsFrom uuid 0
          ((Repliers.getListingArray payload).take
            (min (max limit 1) 100).toNat)).length = _
      rw [mapListingsFrom_length, List.length_take]
    rw [hlen] at hi
    show (Repliers.mapListingsFrom uuid 0
        ((Repliers.getListingArray payload).take
          (min (max limit 1) 100).toNat))[i]? = _
    rw [mapListingsFrom_get uuid _ 0 i,
      take_getElem? _ _ i (by omega)]
    simp

/-- Witness for C5: a two-record payload with limit 10 keeps provider
order and index-wise mapping. -/
theorem searchByCity_spec_witness :
    (0 : Nat) < ((Repliers.searchByCity "Nashville" "TN" 10
      (Repliers.JVal.arr [Repliers.JVal.obj [("id", Repliers.JVal.str "x1")],
        Repliers.JVal.obj [("id", Repliers.JVal.str "x2")]])
      (fun _ => "u")).2).length ∧
    ((Repliers.searchByCity "Nashville" "TN" 10
      (Repliers.JVal.arr [Repliers.JVal.obj [("id", Repliers.JVal.str "x1")],
        Repliers.JVal.obj [("id", Repliers.JVal.str "x2")]])
      (fun _ => "u")).2)[0]? =
      ((Repliers.getListingArray
        (Repliers.JVal.arr [Repliers.JVal.obj [("id", Repliers.JVal.str "x1")],
          Repliers.JVal.obj [("id", Repliers.JVal.str "x2")]]))[0]?).map
        (fun l => Repliers.listingToProperty ((fun _ => "u") 0) l) :=
  ⟨by decide,
   (searchByCity_spec "Nashville" "TN" 10
     (Repliers.JVal.arr [Repliers.JVal.obj [("id", Repliers.JVal.str "x1")],
       Repliers.JVal.obj [("id", Repliers.JVal.str "x2")]])
     (fun _ => "u")).2.2.2.2.2.2.2 0 (by decide)⟩

/-- Counterexample for C5 as stated: with limit 1 and two returned
records, the result maps only the first — not every raw record the
provider returned. -/
theorem searchByCity_truncates :
    (Repliers.getListingArray (Repliers.JVal.arr
      [Repliers.JVal.obj [("id", Repliers.JVal.str "x1")],
       Repliers.JVal.obj [("id", Repliers.JVal.str "x2")]])).length = 2 ∧
    ((Repliers.searchByCity "Nashville" "TN" 1 (Repliers.JVal.arr
      [Repliers.JVal.obj [("id", Repliers.JVal.str "x1")],
       Repliers.JVal.obj [("id", Repliers.JVal.str "x2")]])
      (fun _ => "u")).2).length = 1 := by
  constructor
  · rfl
  · decide

theorem startsWithL_refl : ∀ l : List Char, Repliers.startsWithL l l = true
  | [] => rfl
  | c :: rest => by
    simp only [Repliers.startsWithL, startsWithL_refl rest]
    simp

theorem hasSub_self (n : List Char) : Repliers.hasSub n n = true := by
  cases n with
  | nil => rfl
  | cons c rest =>
    simp only [Repliers.hasSub, startsWithL_refl, Bool.true_or]

theorem hasSub_append (n : List Char) :
    ∀ a : List Char, Repliers.hasSub n (a ++ n) = true := by
  intro a
  induction a with
  | nil => simpa using hasSub_self n
  | cons x xs ih =>
    have hstep : Repliers.hasSub n ((x :: xs) ++ n) =
        (Repliers.startsWithL n (x :: (xs ++ n)) ||
          Repliers.hasSub n (xs ++ n)) := rfl
    rw [hstep, ih]
    simp

theorem photosLoop_eq : ∀ imgs : List Repliers.JVal,
    Repliers.photosLoop imgs =
      imgs.filterMap (fun e => (Repliers.photoUrlOf e).map Repliers.toCdnUrl)
  | [] => rfl
  | .str s :: rest => by
    simp [Repliers.photosLoop, Repliers.photoUrlOf, photosLoop_eq rest]
  | .obj o :: rest => by
    have hL : Repliers.photosLoop (Repliers.JVal.obj o :: rest) =
        (match Repliers.getString o "url" <|> Repliers.getString o "href" <|>
            Repliers.getString o "path" with
         | some u => if u = "" then Repliers.photosLoop rest
             else Repliers.toCdnUrl u :: Repliers.photosLoop rest
         | none => Repliers.photosLoop rest) := rfl
    have hR : Repliers.photoUrlOf (Repliers.JVal.obj o) =
        (match Repliers.getString o "url" <|> Repliers.getString o "href" <|>
            Repliers.getString o "path" with
         | some u => if u = "" then none else some u
         | none => none) := rfl
    rw [hL, List.filterMap_cons]
    cases hurl : (Repliers.getString o "url" <|> Repliers.getString o "href" <|>
        Repliers.getString o "path") with
    | none =>
      have hPU : (Repliers.photoUrlOf (Repliers.JVal.obj o)).map
          Repliers.toCdnUrl = none := by
        rw [hR, hurl]
        rfl
      rw [hPU]
      exact photosLoop_eq rest
    | some u =>
      by_cases hu : u = ""
      · have hPU : (Repliers.photoUrlOf (Repliers.JVal.obj o)).map
            Repliers.toCdnUrl = none := by
          rw [hR, hurl]
          simp [hu]
        show (if u = "" then Repliers.photosLoop rest
            else Repliers.toCdnUrl u :: Repliers.photosLoop rest) = _
        rw [hPU, if_pos hu]
        exact photosLoop_eq rest
      · have hPU : (Repliers.photoUrlOf (Repliers.JVal.obj o)).map
            Repliers.toCdnUrl = some (Repliers.toCdnUrl u) := by
          rw [hR, hurl]
          simp [hu]
        show (if u = "" then Repliers.photosLoop rest
            else Repliers.toCdnUrl u :: Repliers.photosLoop rest) = _
        rw [hPU, if_neg hu]
        exact congrArg (fun t => Repliers.toCdnUrl u :: t) (photosLoop_eq rest)
  | .num n :: rest => by
    simp [Repliers.photosLoop, Repliers.photoUrlOf, photosLoop_eq rest]
  | .bool b :: rest => by
    simp [Repliers.photosLoop, Repliers.photoUrlOf, photosLoop_eq rest]
  | .arr xs :: rest => by
    simp [Repliers.photosLoop, Repliers.photoUrlOf, photosLoop_eq rest]
  | .null :: rest => by
    simp [Repliers.photosLoop, Repliers.photoUrlOf, photosLoop_eq rest]

/-- Claim C9 (corrected): an absolute http(s) URL passes through (after
trimming); a relative path is prefixed with the CDN base (leading slashes
removed) and ALWAYS receives the `class=medium` size hint — joined with
`&` when a query string is already present, `?` otherwise — rather than
skipping the hint when one is present; and every photo entry (bare string
or object with a url-like field, skipping empty object urls) is rewritten
through `toCdnUrl`. -/
theorem toCdnUrl_extractPhotos_spec :
    (∀ s : String, Repliers.isHttpAbsolute (trimS s) = true →
      Repliers.toCdnUrl s = trimS s) ∧
    (∀ s : String, Repliers.isHttpAbsolute (trimS s) = false →
      Repliers.toCdnUrl s =
        (if ("https://cdn.repliers.io/" ++
            (⟨(trimS s).data.dropWhile (fun c => c = '/')⟩ : String)).data.contains
            '?' then
          ("https://cdn.repliers.io/" ++
            (⟨(trimS s).data.dropWhile (fun c => c = '/')⟩ : String)) ++
            "&class=medium"
        else
          ("https://cdn.repliers.io/" ++
            (⟨(trimS s).data.dropWhile (fun c => c = '/')⟩ : String)) ++
            "?class=medium")) ∧
    (∀ s : String, Repliers.isHttpAbsolute (trimS s) = false →
      Repliers.hasSub "class=medium".data (Repliers.toCdnUrl s).data = true) ∧
    (∀ (listing : List (String × Repliers.JVal)) (imgs : List Repliers.JVal),
      Repliers.objGet listing "images" = some (Repliers.JVal.arr imgs) →
      Repliers.extractPhotos listing =
        imgs.filterMap (fun e =>
          (Repliers.photoUrlOf e).map Repliers.toCdnUrl)) := by
  refine ⟨?_, ?_, ?_, ?_⟩
  · intro s habs
    unfold Repliers.toCdnUrl
    rw [if_pos habs]
  · intro s habs
    unfold Repliers.toCdnUrl
    rw [if_neg (by simp [habs])]
  · intro s habs
    unfold Repliers.toCdnUrl
    rw [if_neg (by simp [habs])]
    by_cases hq : ("https://cdn.repliers.io/" ++
        (⟨(trimS s).data.dropWhile (fun c => c = '/')⟩ : String)).data.contains '?'
    · rw [if_pos hq]
      show Repliers.hasSub "class=medium".data
        (_ ++ ('&' :: "class=medium".data)) = true
      rw [show ∀ X : List Char, X ++ ('&' :: "class=medium".data) =
          (X ++ ['&']) ++ "class=medium".data by
        intro X
        rw [List.append_assoc]
        rfl]
      exact hasSub_append _ _
    · rw [if_neg hq]
      show Repliers.hasSub "class=medium".data
        (_ ++ ('?' :: "class=medium".data)) = true
      rw [show ∀ X : List Char, X ++ ('?' :: "class=medium".data) =
          (X ++ ['?']) ++ "class=medium".data by
        intro X
        rw [List.append_assoc]
        rfl]
      exact hasSub_append _ _
  · intro listing imgs himg
    unfold Repliers.extractPhotos
    rw [himg]
    exact photosLoop_eq imgs

/-- Witness for C9: an absolute URL passes through trimmed; a relative
path gets the size hint; a mixed image array maps through `toCdnUrl`. -/
theorem toCdnUrl_extractPhotos_spec_witness :
    Repliers.toCdnUrl " https://a.b/c " = trimS " https://a.b/c " ∧
    Repliers.hasSub "class=medium".data
      (Repliers.toCdnUrl "photo.jpg").data = true ∧
    Repliers.extractPhotos [("images", Repliers.JVal.arr
      [Repliers.JVal.str "a.jpg",
       Repliers.JVal.obj [("href", Repliers.JVal.str "b.jpg")]])] =
      [Repliers.JVal.str "a.jpg",
       Repliers.JVal.obj [("href", Repliers.JVal.str "b.jpg")]].filterMap
        (fun e => (Repliers.photoUrlOf e).map Repliers.toCdnUrl) :=
  ⟨toCdnUrl_extractPhotos_spec.1 " https://a.b/c " (by decide),
   toCdnUrl_extractPhotos_spec.2.2.1 "photo.jpg" (by decide),
   toCdnUrl_extractPhotos_spec.2.2.2 _ _ rfl⟩

/-- Counterexample for C9 as stated: a relative path already carrying a
size hint still receives `class=medium` (appended with `&`), instead of
being left without the medium hint. -/
theorem toCdnUrl_appends_hint_when_present :
    Repliers.toCdnUrl "img.jpg?class=small" ≠
      "https://cdn.repliers.io/img.jpg?class=small" ∧
    Repliers.toCdnUrl "img.jpg?class=small" =
      "https://cdn.repliers.io/img.jpg?class=small&class=medium" := by
  constructor
  · decide
  · decide

theorem tryCandidates_cons (pf : String → Repliers.JVal) (uuid : Nat → String)
    (mkReq : String → Repliers.AddrRequest) (nq : String) (n : String)
    (rest : List String) :
    Repliers.tryCandidates pf uuid mkReq nq (n :: rest) =
      (if (Repliers.getListingArray (pf n)).isEmpty then
        (mkReq n :: (Repliers.tryCandidates pf uuid mkReq nq rest).1,
         (Repliers.tryCandidates pf uuid mkReq nq rest).2)
      else ([mkReq n],
        Repliers.selectFromListings uuid nq (Repliers.getListingArray (pf n)))) :=
  rfl

theorem tryCandidates_all_empty (pf : String → Repliers.JVal)
    (uuid : Nat → String) (mkReq : String → Repliers.AddrRequest) (nq : String) :
    ∀ names : List String,
    names.all (fun n => (Repliers.getListingArray (pf n)).isEmpty) = true →
    Repliers.tryCandidates pf uuid mkReq nq names = (names.map mkReq, none)
  | [], _ => rfl
  | n :: rest, h => by
    have hn : (Repliers.getListingArray (pf n)).isEmpty = true := by
      have := List.all_eq_true.mp h n (by simp)
      simpa using this
    have hrest : rest.all
        (fun m => (Repliers.getListingArray (pf m)).isEmpty) = true := by
      rw [List.all_eq_true]
      intro m hm
      exact List.all_eq_true.mp h m (by simp [hm])
    rw [tryCandidates_cons, if_pos hn,
      tryCandidates_all_empty pf uuid mkReq nq rest hrest]
    rfl

theorem tryCandidates_first_hit (pf : String → Repliers.JVal)
    (uuid : Nat → String) (mkReq : String → Repliers.AddrRequest) (nq : String) :
    ∀ (pre : List String) (n : String) (post : List String),
    pre.all (fun m => (Repliers.getListingArray (pf m)).isEmpty) = true →
    (Repliers.getListingArray (pf n)).isEmpty = false →
    Repliers.tryCandidates pf uuid mkReq nq (pre ++ n :: post) =
      ((pre ++ [n]).map mkReq,
       Repliers.selectFromListings uuid nq (Repliers.getListingArray (pf n)))
  | [], n, post, _, hn => by
    rw [List.nil_append, tryCandidates_cons, if_neg (by simp [hn])]
    rfl
  | p0 :: pre, n, post, hpre, hn => by
    have hp0 : (Repliers.getListingArray (pf p0)).isEmpty = true := by
      have := List.all_eq_true.mp hpre p0 (by simp)
      simpa using this
    have hrest : pre.all
        (fun m => (Repliers.getListingArray (pf m)).isEmpty) = true := by
      rw [List.all_eq_true]
      intro m hm
      exact List.all_eq_true.mp hpre m (by simp [hm])
    rw [List.cons_append, tryCandidates_cons, if_pos hp0,
      tryCandidates_first_hit pf uuid mkReq nq pre n post hrest hn]
    rfl

theorem tryCandidates_reqs (pf : String → Repliers.JVal) (uuid : Nat → String)
    (mkReq : String → Repliers.AddrRequest) (nq : String) :
    ∀ names : List String,
    ∀ r ∈ (Repliers.tryCandidates pf uuid mkReq nq names).1,
    ∃ n ∈ names, r = mkReq n
  | [], r, hr => absurd hr (by simp [Repliers.tryCandidates])
  | n :: rest, r, hr => by
    rw [tryCandidates_cons] at hr
    by_cases hn : (Repliers.getListingArray (pf n)).isEmpty
    · rw [if_pos hn] at hr
      rcases List.mem_cons.mp hr with hr | hr
      · exact ⟨n, by simp, hr⟩
      · obtain ⟨m, hm, hrm⟩ := tryCandidates_reqs pf uuid mkReq nq rest r hr
        exact ⟨m, by simp [hm], hrm⟩
    · rw [if_neg hn] at hr
      rcases List.mem_cons.mp hr with hr | hr
      · exact ⟨n, by simp, hr⟩
      · exact absurd hr (by simp)

/-- Claim C6 (corrected): given a street line with a leading number,
`searchByAddress` tries the ordered case-insensitively de-duplicated
candidate list; every request carries the street number, a candidate
name, the parsed city/state and the sale/active filters; if no candidate
returns listings the outcome is not-found after querying each candidate;
at the first candidate returning listings the search stops (exactly the
candidates up to and including it are queried, later candidates never
merge in) and returns the exact case-insensitive address match, else the
first containment match, else the first mapped listing with a NON-EMPTY
formatted address — not-found when every mapped address is empty. -/
theorem searchByAddress_candidates_spec (q : String)
    (pf : String → Repliers.JVal) (uuid : Nat → String) (num : String)
    (cs : Option String × Option String) (names : List String)
    (h : Repliers.addressPlan q = some (num, cs, names)) :
    (names.all (fun n => (Repliers.getListingArray (pf n)).isEmpty) = true →
      Repliers.searchByAddress q pf uuid =
        (names.map (fun name =>
          { streetNumber := num, streetName := name, city := cs.1,
            state := cs.2, type := "sale", status := "A", pageNum := 1 }),
         none)) ∧
    (∀ (pre : List String) (n : String) (post : List String),
      names = pre ++ n :: post →
      pre.all (fun m => (Repliers.getListingArray (pf m)).isEmpty) = true →
      (Repliers.getListingArray (pf n)).isEmpty = false →
      Repliers.searchByAddress q pf uuid =
        ((pre ++ [n]).map (fun name =>
          { streetNumber := num, streetName := name, city := cs.1,
            state := cs.2, type := "sale", status := "A", pageNum := 1 }),
         Repliers.selectFromListings uuid
           (lowerS (Repliers.normalizeWhitespace q))
           (Repliers.getListingArray (pf n)))) ∧
    (∀ r ∈ (Repliers.searchByAddress q pf uuid).1, ∃ name ∈ names,
      r = { streetNumber := num, streetName := name, city := cs.1,
            state := cs.2, type := "sale", status := "A", pageNum := 1 }) := by
  have hform : Repliers.searchByAddress q pf uuid =
      Repliers.tryCandidates pf uuid
        (fun name =>
          { streetNumber := num, streetName := name, city := cs.1,
            state := cs.2, type := "sale", status := "A", pageNum := 1 })
        (lowerS (Repliers.normalizeWhitespace q)) names := by
    unfold Repliers.searchByAddress
    rw [h]
  refine ⟨?_, ?_, ?_⟩
  · intro hall
    rw [hform]
    exact tryCandidates_all_empty pf uuid _ _ names hall
  · intro pre n post hsplit hpre hn
    rw [hform, hsplit]
    exact tryCandidates_first_hit pf uuid _ _ pre n post hpre hn
  · intro r hr
    rw [hform] at hr
    exact tryCandidates_reqs pf uuid _ _ names r hr

/-- Witness for C6 at the spec's fallback scenario: the provider only
answers the suffix-stripped candidate `"Main"`, and the search still
succeeds with the matching listing. -/
theorem searchByAddress_candidates_spec_witness :
    ((Repliers.searchByAddress "123 Main St, Austin, TX 78701"
      addressProvFixture (fun _ => "u")).2).map (fun p => p.address) =
      some "123 Main St, Austin, TX 78701" := by
  have h := (searchByAddress_candidates_spec "123 Main St, Austin, TX 78701"
    addressProvFixture (fun _ => "u") "123" (some "Austin", some "TX")
    ["Main St", "Main"] (by decide)).2.1 ["Main St"] "Main" [] rfl
    (by decide) (by decide)
  rw [h]
  decide

/-- Counterexample for C6 as stated: when the first candidate's listings
start with a record mapping to an empty formatted address, the function
returns the first listing with a non-empty address ("5 Oak"), not "the
first listing returned" (whose mapped address is empty). -/
theorem searchByAddress_fallback_skips_blank_address :
    ((Repliers.mapListings (fun _ => "u")
      (Repliers.getListingArray (blankFirstProvFixture "Main St"))).head?).map
      (fun p => p.address) = some "" ∧
    ((Repliers.searchByAddress "123 Main St" blankFirstProvFixture
      (fun _ => "u")).2).map (fun p => p.address) = some "5 Oak" := by
  constructor
  · decide
  · decide
